import Mathlib

/-!
# Slab allocation protocol of snmalloc (`src/mem/metaslab.h`, `src/mem/slab.h`)

A shallow embedding of `Metaslab`, `Slab::alloc` and `Slab::dealloc`.

* Machine integers are natural numbers; every conversion to `uint16_t` or
  `size_t` is written out as a remainder.
* Pointers are addresses (natural numbers); the slab memory is a map from
  addresses to bytes, and the 16-bit `next` field of a freed block is read and
  written little-endian.
* `assert` is a no-op (`NDEBUG`): `alloc` and `dealloc` are the release-build
  state transformers, and each assertion of the source is a separate predicate.
* Calls into collaborators whose code is outside this development (the
  free-slab list, the `Superslab`) are recorded, in order, in a list of
  `Call`s.
* The memory provider is `PALFBSD` (`src/pal/pal_freebsd.h`): its `zero` call
  is recorded as well, and its effect on memory is that of `PALFBSD::zero`,
  `bzero` of the block or fresh pages mapped over every page the block
  overlaps.
-/

namespace Snmalloc

/-! ## Constants and machine integers -/

/-- Modelled from the spec: the constant `SLAB_SIZE` (declared in
`allocconfig.h`, outside this development).  Section 8 of the spec fixes it at
65536, so that every `uint16_t` value is a slab-relative offset. -/
def SLAB_SIZE : Nat := 65536

/-- Conversion of a value to `uint16_t`. -/
def uint16_t (n : Nat) : Nat := n % 65536

/-- The number of values of `size_t` (a 64-bit target such as the FreeBSD PAL). -/
def SIZE_T_RANGE : Nat := 18446744073709551616

/-- Conversion of a value to `size_t`. -/
def size_t (n : Nat) : Nat := n % SIZE_T_RANGE

/-- The difference `a - b` computed in `size_t`: it wraps below zero. -/
def size_t_sub (a b : Nat) : Nat :=
  (((a : Int) - (b : Int)) % 18446744073709551616).toNat

/-- Modelled from the spec: assignment to a `Mod<SLAB_SIZE, uint16_t>` field
(`helpers.h` is outside this development): the stored `uint16_t` is reduced
modulo `SLAB_SIZE` ("the exact numeric wraparound arithmetic"). -/
def mod_slab (v : Nat) : Nat := uint16_t v % SLAB_SIZE

/-! ## Memory -/

/-- Byte-addressed memory. -/
abbrev Memory := Nat → Nat

/-- The read `*static_cast<uint16_t*>(p)`. -/
def load16 (mem : Memory) (p : Nat) : Nat :=
  mem p % 256 + 256 * (mem (p + 1) % 256)

/-- The write `*static_cast<uint16_t*>(p) = v`. -/
def store16 (mem : Memory) (p v : Nat) : Memory :=
  fun a => if a = p then v % 256 else if a = p + 1 then v / 256 % 256 else mem a

/-- Effect on memory of `bzero(p, size)`: the `size` bytes from `p` are zero,
nothing else changes. -/
def zero_range (mem : Memory) (p size : Nat) : Memory :=
  fun a => if p ≤ a ∧ a < p + size then 0 else mem a

/-- Effect on memory of a successful
`mmap(p, size, PROT_READ | PROT_WRITE, MAP_PRIVATE | MAP_ANONYMOUS | MAP_FIXED, -1, 0)`
with pages of `page` bytes: every page that overlaps `[p, p + size)` is
replaced by a fresh anonymous page, which reads as zero; the bytes of such a
page outside the block are zero as well. -/
def mmap_fixed (page : Nat) (mem : Memory) (p size : Nat) : Memory :=
  fun a => if p / page * page ≤ a ∧ a < (p + size + page - 1) / page * page then 0 else mem a

/-- Modelled from the spec: `bits::is_aligned_block<alignment>(p, size)` of
`bits.h` (outside this development): the region is page-aligned and
page-sized, address and size are both multiples of `alignment`. -/
def is_aligned_block (alignment p size : Nat) : Bool :=
  p % alignment == 0 && size % alignment == 0

/-- The assertion `assert(bits::is_aligned_block<OS_PAGE_SIZE>(p, size))` of
`PALFBSD::zero<page_aligned>(p, size)`, made on the path that maps fresh
pages. -/
def PALFBSD_zero_assert (page : Nat) (page_aligned : Bool) (p size : Nat) : Bool :=
  !(page_aligned || is_aligned_block page p size) || is_aligned_block page p size

/-- The method `PALFBSD::zero<page_aligned>(p, size)` of `pal_freebsd.h`
(assertion compiled out), with pages of `page` bytes (`OS_PAGE_SIZE`);
`mmap_ok` says that `mmap` did not return `MAP_FAILED`.  With the template
argument set, or for a block of whole pages, fresh pages are mapped over the
block and the method returns if that succeeds; in every other case `bzero`
clears the block. -/
def PALFBSD_zero (page : Nat) (page_aligned mmap_ok : Bool) (mem : Memory) (p size : Nat) :
    Memory :=
  if page_aligned || is_aligned_block page p size then
    if mmap_ok then mmap_fixed page mem p size
    else zero_range mem p size
  else zero_range mem p size

/-! ## Metaslab -/

/-- The class `Metaslab`: three 16-bit fields. -/
structure Metaslab where
  used : Nat
  head : Nat
  link : Nat
deriving DecidableEq, Repr

/-- The fields of a `Metaslab` are 16-bit values. -/
def Metaslab.in_range (m : Metaslab) : Prop :=
  m.used < 65536 ∧ m.head < 65536 ∧ m.link < 65536

instance (m : Metaslab) : Decidable m.in_range := by
  unfold Metaslab.in_range; infer_instance

/-- The method `add_use`: `used++`. -/
def Metaslab.add_use (m : Metaslab) : Metaslab :=
  { m with used := uint16_t (m.used + 1) }

/-- The decrement `n--` of a `uint16_t`: one less, modulo 65536. -/
def dec16 (n : Nat) : Nat := (((n : Int) - 1) % 65536).toNat

/-- The method `sub_use`: `used--`. -/
def Metaslab.sub_use (m : Metaslab) : Metaslab :=
  { m with used := dec16 m.used }

/-- The method `set_unused`. -/
def Metaslab.set_unused (m : Metaslab) : Metaslab :=
  { m with used := 0 }

/-- The method `is_unused`. -/
def Metaslab.is_unused (m : Metaslab) : Bool := m.used == 0

/-- The method `is_full`. -/
def Metaslab.is_full (m : Metaslab) : Bool := m.link == 1

/-- The two assertions at the start of `set_full`. -/
def Metaslab.set_full_asserts (m : Metaslab) : Bool := m.head == 1 && m.link != 1

/-- The method `set_full` (assertions compiled out). -/
def Metaslab.set_full (m : Metaslab) : Metaslab :=
  { m with link := mod_slab 1 }

/-! ## Environment of one slab -/

/-- What `Slab` and `Metaslab` take from their surroundings: the address of
the slab, constants of `allocconfig.h` and `pal.h`, the size class recorded
by the `Superslab`, the size-class table of `sizeclass.h`, and the answers of
the operating system to the calls of the memory provider. -/
structure Env where
  /-- Value of `address_cast(this)`. -/
  slab : Nat
  SUPERSLAB_MASK : Nat
  PAGE_ALIGNED_SIZE : Nat
  /-- The constant `OS_PAGE_SIZE` of `pal.h` (`Pal::page_size`). -/
  OS_PAGE_SIZE : Nat
  /-- Whether `mmap(p, size, ..., MAP_FIXED, ...)` succeeds (does not return
  `MAP_FAILED`), for each `p` and `size`; nothing is assumed of it. -/
  mmap_ok : Nat → Nat → Bool
  /-- Value of `Superslab::get_sizeclass(this)`. -/
  sizeclass : Nat
  sizeclass_to_size : Nat → Nat
  get_slab_offset : Nat → Bool → Nat

/-- The method `Slab::is_short`. -/
def Env.is_short (E : Env) : Bool := (E.slab &&& E.SUPERSLAB_MASK) == E.slab

/-- Object size of the slab: `sizeclass_to_size(get_sizeclass())`. -/
def Env.size (E : Env) : Nat := E.sizeclass_to_size E.sizeclass

/-- Tagged start of the payload: `get_slab_offset(get_sizeclass(), is_short())`. -/
def Env.slab_offset (E : Env) : Nat := E.get_slab_offset E.sizeclass E.is_short

/-- The local `offset` of `debug_slab_invariant`:
`size_t offset = get_slab_offset(sizeclass, is_short) - 1`, the payload start. -/
def Env.offset (E : Env) : Nat := size_t_sub E.slab_offset 1

/-- The method `Metaslab::get_link`: `pointer_offset(slab, link)`. -/
def Metaslab.get_link (m : Metaslab) (E : Env) : Nat := E.slab + m.link

/-- The method `Slab::pointer_to_index`: the difference of the two addresses,
converted to `uint16_t` (independent of the pointer width, a multiple of 16). -/
def pointer_to_index (E : Env) (p : Nat) : Nat :=
  (((p : Int) - (E.slab : Int)) % 65536).toNat

/-- The method `Metaslab::valid_head`. -/
def Metaslab.valid_head (m : Metaslab) (E : Env) : Bool :=
  let size := E.size
  let offset := size_t E.slab_offset
  let head_start := m.head / 2 * 2
  let slab_start := offset / 2 * 2
  size_t_sub head_start slab_start % size == 0

/-! ## Calls into collaborators -/

/-- A call made by `alloc` or `dealloc` into code outside `slab.h`. -/
inductive Call where
  /-- The call `sc->pop()` on the free-slab list handed to `alloc`. -/
  | pop
  /-- The call `scs[sizeclass].insert(node)`. -/
  | insert (sizeclass node : Nat)
  /-- The call `scs[sizeclass].remove(node)`. -/
  | remove (sizeclass node : Nat)
  /-- The call `super->dealloc_short_slab(memory_provider)`. -/
  | dealloc_short_slab
  /-- The call `super->dealloc_slab(this, memory_provider)`. -/
  | dealloc_slab (slab : Nat)
  /-- The call `memory_provider.zero(p, size)`, or `zero<true>(p, size)` when
  `page_aligned` is set. -/
  | zero (page_aligned : Bool) (p size : Nat)
deriving DecidableEq, Repr

/-- Whether the call is one of the two reclaim operations of the `Superslab`. -/
def Call.is_reclaim : Call → Bool
  | .dealloc_short_slab => true
  | .dealloc_slab _ => true
  | _ => false

/-- Whether the call goes to a free-slab list. -/
def Call.is_list_op : Call → Bool
  | .pop => true
  | .insert _ _ => true
  | .remove _ _ => true
  | _ => false

/-- Whether the call is a removal from a free-slab list. -/
def Call.is_remove : Call → Bool
  | .remove _ _ => true
  | _ => false

/-- Whether the call is an insertion into a free-slab list. -/
def Call.is_insert : Call → Bool
  | .insert _ _ => true
  | _ => false

/-- The value `dealloc` returns: the constant `Superslab::NoSlabReturn`, or
whatever the reclaim call it ends with returns. -/
inductive Action where
  | NoSlabReturn
  | returned_by (c : Call)
deriving DecidableEq, Repr

/-! ## Slab -/

/-- A slab: its `Metaslab` (held by the `Superslab`) and the memory. -/
structure SlabState where
  meta : Metaslab
  mem : Memory

/-- The method `Slab::alloc<zero_mem>(sc, rsize, memory_provider)`: the
returned pointer, the new state, and the calls made.  The memory provider
zeroes with `PALFBSD::zero`: `zero(p, rsize)` below `PAGE_ALIGNED_SIZE`,
`zero<true>(p, rsize)` otherwise. -/
def alloc (E : Env) (zero_mem : Bool) (rsize : Nat) (s : SlabState) :
    Nat × SlabState × List Call :=
  let head := s.meta.head
  let meta := s.meta.add_use
  let r : Nat × Metaslab × List Call :=
    if head &&& 1 = 0 then
      let p := E.slab + head
      let next := load16 s.mem p
      (p, { meta with head := mod_slab next }, [])
    else if meta.head = 1 then
      (E.slab + meta.link, meta.set_full, [Call.pop])
    else
      (E.slab + (head - 1),
        { meta with head := mod_slab ((head + uint16_t rsize) &&& (SLAB_SIZE - 1)) }, [])
  if zero_mem then
    (r.1, { meta := r.2.1,
            mem := PALFBSD_zero E.OS_PAGE_SIZE (decide (¬ rsize < E.PAGE_ALIGNED_SIZE))
              (E.mmap_ok r.1 rsize) s.mem r.1 rsize },
      r.2.2 ++ [Call.zero (decide (¬ rsize < E.PAGE_ALIGNED_SIZE)) r.1 rsize])
  else
    (r.1, { meta := r.2.1, mem := s.mem }, r.2.2)

/-- The reclaim call at the end of the two emptying branches of `dealloc`. -/
def reclaim_call (E : Env) : Call :=
  if E.is_short then Call.dealloc_short_slab else Call.dealloc_slab E.slab

/-- The method `Slab::dealloc(scs, super, p, memory_provider)`: the returned
action, the new state, and the calls made. -/
def dealloc (E : Env) (p : Nat) (s : SlabState) : Action × SlabState × List Call :=
  let was_full := s.meta.is_full
  let meta := s.meta.sub_use
  if was_full then
    if ¬ meta.is_unused then
      let index := pointer_to_index E p
      let meta := { meta with link := mod_slab index }
      (Action.NoSlabReturn, { meta := meta, mem := s.mem },
        [Call.insert E.sizeclass (meta.get_link E)])
    else
      (Action.returned_by (reclaim_call E), { meta := meta, mem := s.mem }, [reclaim_call E])
  else if meta.is_unused then
    (Action.returned_by (reclaim_call E), { meta := meta, mem := s.mem },
      [Call.remove E.sizeclass (meta.get_link E), reclaim_call E])
  else
    let head := meta.head
    let current := pointer_to_index E p
    let meta := { meta with head := mod_slab current }
    (Action.NoSlabReturn, { meta := meta, mem := store16 s.mem p head }, [])

/-- The assertion `assert(meta.head == 1)` in the was-full branch of `dealloc`. -/
def dealloc_assert_head (s : SlabState) : Bool := s.meta.head == 1

/-! ## The debug invariant -/

/-- Result of running `debug_slab_invariant`. -/
inductive Verdict where
  /-- Every assertion held; `accounted_for` is the value at the return. -/
  | ok (accounted_for : Nat)
  | assert_failed
  | out_of_fuel
deriving DecidableEq, Repr

/-- State of the walk when the `while` loop is left. -/
inductive Walk where
  | done (curr accounted_for : Nat)
  | assert_failed
  | out_of_fuel
deriving DecidableEq, Repr

/-- The `while ((curr & 1) != 1)` loop of `debug_slab_invariant`, at most
`fuel` tests of the loop condition. -/
def debug_walk (E : Env) (link : Nat) (mem : Memory) : Nat → Nat → Nat → Walk
  | 0, _, _ => Walk.out_of_fuel
  | fuel + 1, curr, accounted_for =>
    if curr &&& 1 = 1 then Walk.done curr accounted_for
    else
      let start := curr
      if size_t_sub start E.offset % E.size ≠ 0 then Walk.assert_failed
      else
        let accounted_for := size_t (accounted_for + E.size)
        if ¬ (SLAB_SIZE ≥ accounted_for) then Walk.assert_failed
        else if curr = link then Walk.assert_failed
        else debug_walk E link mem fuel (load16 mem (E.slab + curr)) accounted_for

/-- The method `Metaslab::debug_slab_invariant(is_short, slab, sizeclass)` in a
debug build. -/
def debug_slab_invariant (E : Env) (s : SlabState) : Verdict :=
  let size := E.size
  let offset := E.offset
  let accounted_for := size_t (s.meta.used * size + offset)
  if s.meta.is_full then
    if SLAB_SIZE = accounted_for then Verdict.ok accounted_for else Verdict.assert_failed
  else if ¬ (SLAB_SIZE > accounted_for) then Verdict.assert_failed
  else
    match debug_walk E s.meta.link s.mem (SLAB_SIZE + 2) s.meta.head accounted_for with
    | Walk.out_of_fuel => Verdict.out_of_fuel
    | Walk.assert_failed => Verdict.assert_failed
    | Walk.done curr accounted_for =>
      let tail : Option Nat :=
        if curr ≠ 1 then
          let start := curr / 2 * 2
          if size_t_sub start offset % size ≠ 0 then none
          else if ((s.meta.link : Int) ≠ (E.slab_offset : Int) - 1) then none
          else some (size_t (accounted_for + (SLAB_SIZE - (curr - 1))))
        else some accounted_for
      match tail with
      | none => Verdict.assert_failed
      | some accounted_for =>
        if s.meta.link = 1 then Verdict.assert_failed
        else
          let accounted_for := size_t (accounted_for + size)
          if SLAB_SIZE = accounted_for then Verdict.ok accounted_for
          else Verdict.assert_failed

/-! ## Runs of calls on one slab -/

/-- Modelled from the spec: the `Metaslab` of a freshly initialised slab (set
up by the `Superslab`, outside this development): nothing is used, `link` is
the first block of the payload ("the first entry in a slab is never bump
allocated but is used for the link") and `head` is the bump pointer just
behind it, tagged odd. -/
def fresh_meta (E : Env) : Metaslab :=
  { used := 0, head := mod_slab (E.slab_offset + E.size), link := mod_slab (E.slab_offset - 1) }

/-- One step of a run: a call of `alloc`, a call of `dealloc`, or a store of
one byte by the owner of that byte (the client into a block it holds, the
free-slab list into the node embedded at `link`). -/
inductive Op where
  | alloc (zero_mem : Bool)
  | dealloc (p : Nat)
  | store (a v : Nat)
deriving DecidableEq, Repr

/-- A slab together with the blocks currently handed out and whether the slab
has been given back to the `Superslab`. -/
structure Sys where
  st : SlabState
  live : List Nat
  returned : Bool

/-- The freshly initialised slab over arbitrary memory. -/
def fresh (E : Env) (mem : Memory) : Sys :=
  { st := { meta := fresh_meta E, mem := mem }, live := [], returned := false }

/-- Whether the byte at `a` lies in the block of `E.size` bytes at `p`. -/
def in_block (E : Env) (p a : Nat) : Bool := decide (p ≤ a) && decide (a < p + E.size)

/-- Whether a store to `a` is by the owner of that byte. -/
def store_ok (E : Env) (y : Sys) (a : Nat) : Bool :=
  y.live.any (fun p => in_block E p a) ||
    (!y.st.meta.is_full && in_block E (y.st.meta.get_link E) a)

/-- A valid step: `alloc` on a slab that is not Full, `dealloc` of a block
currently handed out, a store by the owner; nothing after the slab has been
given back. -/
def step (E : Env) (y : Sys) : Op → Option Sys
  | Op.alloc z =>
    if y.returned || y.st.meta.is_full then none
    else
      let r := alloc E z E.size y.st
      some { st := r.2.1, live := r.1 :: y.live, returned := false }
  | Op.dealloc p =>
    if y.returned || !(y.live.contains p) then none
    else
      let r := dealloc E p y.st
      some { st := r.2.1, live := y.live.erase p, returned := decide (r.1 ≠ Action.NoSlabReturn) }
  | Op.store a v =>
    if y.returned || !(store_ok E y a) then none
    else
      some { y with st := { y.st with mem := fun b => if b = a then v % 256 else y.st.mem b } }

/-- A run of valid steps. -/
def run (E : Env) : Sys → List Op → Option Sys
  | y, [] => some y
  | y, op :: ops => (step E y op).bind (fun y1 => run E y1 ops)

/-- What the size-class table guarantees for the slab: a positive even object
size, an odd (tagged) payload offset, and a payload that is a whole number of
objects, at least one. -/
def Env.well_formed (E : Env) : Prop :=
  0 < E.size ∧ E.size % 2 = 0 ∧ E.slab_offset % 2 = 1 ∧
    E.slab_offset - 1 + E.size ≤ SLAB_SIZE ∧ (SLAB_SIZE - (E.slab_offset - 1)) % E.size = 0

instance (E : Env) : Decidable E.well_formed := by
  unfold Env.well_formed; infer_instance

/-- What the assertion of `PALFBSD::zero` requires of the size-class table: an
object size that reaches `PAGE_ALIGNED_SIZE`, for which `alloc` zeroes with
`zero<true>`, is a whole number of pages and the payload starts on a page
boundary, so that every object is made of whole pages. -/
def Env.whole_pages (E : Env) : Prop :=
  E.PAGE_ALIGNED_SIZE ≤ E.size →
    0 < E.OS_PAGE_SIZE ∧ E.size % E.OS_PAGE_SIZE = 0 ∧
      (E.slab + (E.slab_offset - 1)) % E.OS_PAGE_SIZE = 0

instance (E : Env) : Decidable E.whole_pages := by
  unfold Env.whole_pages; infer_instance

/-- Number of objects of the slab: the blocks that fit between the payload
start and the end of the slab. -/
def Env.capacity (E : Env) : Nat := (SLAB_SIZE - (E.slab_offset - 1)) / E.size

/-- The layout of section 8 of the spec: objects of 64 bytes, payload from
byte 64, at the given address. -/
def env64 (slab : Nat) : Env :=
  { slab := slab, SUPERSLAB_MASK := 0, PAGE_ALIGNED_SIZE := 4096, OS_PAGE_SIZE := 4096,
    mmap_ok := fun _ _ => true, sizeclass := 3,
    sizeclass_to_size := fun _ => 64, get_slab_offset := fun _ _ => 65 }

/-! ## The representation invariant -/

/-- Offset of an object slot: a whole number of objects behind the payload
start, with the object inside the slab. -/
def Slot (E : Env) (o : Nat) : Prop :=
  ∃ k, o = E.slab_offset - 1 + k * E.size ∧ o + E.size ≤ SLAB_SIZE

/-- The free list threaded through the slab memory: from `h`, through the
blocks at the offsets `fl`, to the first value `t` that is not followed. -/
def Chain (E : Env) (mem : Memory) : Nat → List Nat → Nat → Prop
  | h, [], t => h = t
  | h, o :: fl, t => h = o ∧ Chain E mem (load16 mem (E.slab + o)) fl t

/-- The state of a slab that is not Full: the free list `fl` ending in the
odd value `t`, either 1 or the tagged bump pointer. -/
structure Shape (E : Env) (y : Sys) (fl : List Nat) (t : Nat) : Prop where
  chain : Chain E y.st.mem y.st.meta.head fl t
  t_odd : t % 2 = 1
  t_lt : t < SLAB_SIZE
  fl_nodup : fl.Nodup
  fl_slot : ∀ o ∈ fl, Slot E o
  fl_live : ∀ o ∈ fl, E.slab + o ∉ y.live
  link_slot : Slot E y.st.meta.link
  link_fl : y.st.meta.link ∉ fl
  link_live : E.slab + y.st.meta.link ∉ y.live
  bump : t ≠ 1 → y.st.meta.link = E.slab_offset - 1 ∧ Slot E (t - 1) ∧
    E.slab_offset - 1 < t - 1 ∧ (∀ o ∈ fl, o < t - 1) ∧ ∀ p ∈ y.live, p < E.slab + (t - 1)
  total : y.st.meta.used * E.size + (E.slab_offset - 1) + fl.length * E.size
    + (if t = 1 then 0 else SLAB_SIZE - (t - 1)) + E.size = SLAB_SIZE

/-- The invariant of a slab in use. -/
structure Inv (E : Env) (y : Sys) : Prop where
  live_nodup : y.live.Nodup
  live_slot : ∀ p ∈ y.live, ∃ o, p = E.slab + o ∧ Slot E o
  used_eq : y.st.meta.used = y.live.length
  full : y.st.meta.link = 1 →
    y.st.meta.head = 1 ∧ y.st.meta.used * E.size + (E.slab_offset - 1) = SLAB_SIZE
  space : y.st.meta.link ≠ 1 → ∃ fl t, Shape E y fl t

/-- The invariant of a run: `Inv` while the slab is in use; once it has been
given back, nothing is used, and `link` is still 1 only for a slab of a
single object. -/
def Good (E : Env) (y : Sys) : Prop :=
  (y.returned = false → Inv E y) ∧
  (y.returned = true → y.st.meta.used = 0 ∧
    (y.st.meta.link = 1 → E.slab_offset - 1 + E.size = SLAB_SIZE))

/-! ## Definitions used to state the properties -/

/-- The free list as the accounting property words it: the number of blocks
on the chain from `curr`, and the odd value the chain ends in. -/
def free_chain (E : Env) (mem : Memory) : Nat → Nat → Nat × Nat
  | 0, curr => (0, curr)
  | fuel + 1, curr =>
    if curr % 2 = 1 then (0, curr)
    else
      let r := free_chain E mem fuel (load16 mem (E.slab + curr))
      (r.1 + 1, r.2)

/-- The sum of the accounting property, following the words of the spec:
`used * object_size`, plus `object_size` for each block on the free-list chain
reachable from `head`, plus the bytes from the bump offset to the end of the
slab when the chain ends in a bump pointer other than 1, plus `object_size`
for the link slot (a Full slab has no link slot). -/
def spec_accounting (E : Env) (s : SlabState) : Nat :=
  let c := free_chain E s.mem SLAB_SIZE s.meta.head
  s.meta.used * E.size + c.1 * E.size
    + (if c.2 % 2 = 1 ∧ c.2 ≠ 1 then SLAB_SIZE - (c.2 - 1) else 0)
    + (if s.meta.is_full then 0 else E.size)

/-- A run of `dealloc` calls on the pointers `ps`, in order: the final state
and all the calls made. -/
def dealloc_run (E : Env) : SlabState → List Nat → SlabState × List Call
  | s, [] => (s, [])
  | s, p :: ps =>
    let r := dealloc E p s
    let q := dealloc_run E r.2.1 ps
    (q.1, r.2.2 ++ q.2)

/-- A run of `n` calls of `alloc` (not zeroing): the final state and the
pointers returned, the first one first. -/
def alloc_run (E : Env) : Nat → SlabState → SlabState × List Nat
  | 0, s => (s, [])
  | n + 1, s =>
    let r := alloc E false E.size s
    let q := alloc_run E n r.2.1
    (q.1, r.1 :: q.2)

/-- A layout with the payload at the very start of the slab: objects of 64
bytes from byte 0. -/
def env0 (slab : Nat) : Env :=
  { slab := slab, SUPERSLAB_MASK := 0, PAGE_ALIGNED_SIZE := 4096, OS_PAGE_SIZE := 4096,
    mmap_ok := fun _ _ => true, sizeclass := 3,
    sizeclass_to_size := fun _ => 64, get_slab_offset := fun _ _ => 1 }

/-- A layout of capacity 1: one object of 32768 bytes in the upper half. -/
def env1 (slab : Nat) : Env :=
  { slab := slab, SUPERSLAB_MASK := 0, PAGE_ALIGNED_SIZE := 4096, OS_PAGE_SIZE := 4096,
    mmap_ok := fun _ _ => true, sizeclass := 40,
    sizeclass_to_size := fun _ => 32768, get_slab_offset := fun _ _ => 32769 }

/-- A layout of capacity 3: objects of 16384 bytes, payload from byte 16384. -/
def env3 (slab : Nat) : Env :=
  { slab := slab, SUPERSLAB_MASK := 0, PAGE_ALIGNED_SIZE := 4096, OS_PAGE_SIZE := 4096,
    mmap_ok := fun _ _ => true, sizeclass := 38,
    sizeclass_to_size := fun _ => 16384, get_slab_offset := fun _ _ => 16385 }

/-- The fresh slab of the scenario of section 8: objects of 64 bytes, payload
from byte 64. -/
def scenario_start (slab : Nat) (mem : Memory) : SlabState :=
  { meta := fresh_meta (env64 slab), mem := mem }

/-- The scenario after 1023 calls of `alloc`: the state and the pointers
returned. -/
def scenario_full (slab : Nat) (mem : Memory) : SlabState × List Nat :=
  alloc_run (env64 slab) 1023 (scenario_start slab mem)

/-- Memory holding zero everywhere. -/
def zero_mem : Memory := fun _ => 0

/-- Modelled from the spec: the constant `SLAB_MASK` (declared in
`allocconfig.h`, outside this development), the mask that rounds a 64-bit
address down to `SLAB_SIZE` alignment: all bits set but the low 16. -/
def SLAB_MASK : Nat := 18446744073709551616 - 65536

/-- The method `Slab::get`: `address_cast(p) & SLAB_MASK`. -/
def Slab.get (p : Nat) : Nat := p &&& SLAB_MASK

/-- The method `SlabLink::get_slab`: `address_cast(this) & SLAB_MASK`. -/
def SlabLink.get_slab (node : Nat) : Nat := node &&& SLAB_MASK

/-- Modelled from the spec: the function `is_multiple_of_sizeclass` of
`sizeclass.h` (outside this development): whether the distance is a multiple
of the object size. -/
def is_multiple_of_sizeclass (rsize offset : Nat) : Bool := offset % rsize == 0

/-- The method `Slab::is_start_of_object`: the distance
`address_cast(this) + SLAB_SIZE - address_cast(p)` is computed in `size_t`. -/
def is_start_of_object (E : Env) (p : Nat) : Bool :=
  is_multiple_of_sizeclass E.size (size_t_sub (E.slab + SLAB_SIZE) p)

/-- The blocks the loop of `debug_slab_invariant` visits from `curr`: the even
values of the chain, up to the first odd one. -/
def chain_blocks (E : Env) (mem : Memory) : Nat → Nat → List Nat
  | 0, _ => []
  | fuel + 1, curr =>
    if curr % 2 = 1 then []
    else curr :: chain_blocks E mem fuel (load16 mem (E.slab + curr))

/-- A run of calls of `alloc`, one for each entry of `zs` (zeroing or not):
the final state and the pointers returned, the first one first. -/
def alloc_seq (E : Env) : List Bool → SlabState → SlabState × List Nat
  | [], s => (s, [])
  | z :: zs, s =>
    let r := alloc E z E.size s
    let q := alloc_seq E zs r.2.1
    (q.1, r.1 :: q.2)

/-- A layout with an object size that is not a power of two: objects of 48
bytes, payload from byte 64. -/
def env48 (slab : Nat) : Env :=
  { slab := slab, SUPERSLAB_MASK := 0, PAGE_ALIGNED_SIZE := 4096, OS_PAGE_SIZE := 4096,
    mmap_ok := fun _ _ => true, sizeclass := 2,
    sizeclass_to_size := fun _ => 48, get_slab_offset := fun _ _ => 65 }

/-- Whether the call is a zeroing call of the memory provider. -/
def Call.is_zero : Call → Bool
  | .zero _ _ _ => true
  | _ => false

/-- What holds along a run whatever the memory holds: the blocks handed out
lie at even 16-bit offsets, `head` is a 16-bit value, a Full slab has
`head == 1`, and `link` is 1 or an even 16-bit offset. -/
structure Weak (E : Env) (y : Sys) : Prop where
  live_even : ∀ p ∈ y.live, ∃ o, p = E.slab + o ∧ o % 2 = 0 ∧ o < 65536
  head_lt : y.st.meta.head < 65536
  full_head : y.st.meta.link = 1 → y.st.meta.head = 1
  link_even : y.st.meta.link ≠ 1 → y.st.meta.link % 2 = 0 ∧ y.st.meta.link < 65536

/-- What the assertions of `debug_slab_invariant` establish on a slab that is
not Full: the free list `fl` from `head` to the odd value `t`, every block of
it even, aligned and different from `link`; an aligned bump pointer with
`link` at the payload start when `t` is not 1; and all bytes accounted for. -/
structure Checked (E : Env) (s : SlabState) (fl : List Nat) (t : Nat) : Prop where
  chain : Chain E s.mem s.meta.head fl t
  t_odd : t % 2 = 1
  entries : ∀ o ∈ fl, o % 2 = 0 ∧ size_t_sub o E.offset % E.size = 0 ∧ o ≠ s.meta.link
  bump : t ≠ 1 → size_t_sub (t / 2 * 2) E.offset % E.size = 0 ∧
    (s.meta.link : Int) = (E.slab_offset : Int) - 1
  not_full : s.meta.link ≠ 1
  total : s.meta.used * E.size + E.offset + fl.length * E.size
    + (if t = 1 then 0 else SLAB_SIZE - (t - 1)) + E.size = SLAB_SIZE

/-! ## Arithmetic and memory lemmas -/

/-- A 16-bit read yields a 16-bit value. -/
theorem load16_lt (mem : Memory) (p : Nat) : load16 mem p < 65536 := by
  unfold load16; omega

/-- Reading back the 16-bit value just stored. -/
theorem load16_store16 (mem : Memory) (p v : Nat) (hv : v < 65536) :
    load16 (store16 mem p v) p = v := by
  unfold load16 store16
  simp
  omega

/-- A 16-bit read depends on its two bytes only. -/
theorem load16_congr (m1 m2 : Memory) (p : Nat) (h0 : m1 p = m2 p)
    (h1 : m1 (p + 1) = m2 (p + 1)) : load16 m1 p = load16 m2 p := by
  unfold load16; rw [h0, h1]

/-- Fresh pages over a block of whole pages clear the block and nothing else. -/
theorem mmap_fixed_aligned (page : Nat) (mem : Memory) (p size : Nat)
    (h : is_aligned_block page p size = true) :
    mmap_fixed page mem p size = zero_range mem p size := by
  simp only [is_aligned_block, Bool.and_eq_true, beq_iff_eq] at h
  obtain ⟨hp, hs⟩ := h
  have e1 : p / page * page = p := Nat.div_mul_cancel (Nat.dvd_of_mod_eq_zero hp)
  have e2 : (p + size + page - 1) / page * page = p + size := by
    by_cases h0 : page = 0
    · subst h0
      simp only [Nat.mod_zero] at hp hs
      subst hp hs
      simp
    · have hpos : 0 < page := Nat.pos_of_ne_zero h0
      obtain ⟨k, hk⟩ : page ∣ p + size :=
        Nat.dvd_add (Nat.dvd_of_mod_eq_zero hp) (Nat.dvd_of_mod_eq_zero hs)
      rw [hk, Nat.add_sub_assoc hpos, Nat.mul_add_div hpos,
        Nat.div_eq_of_lt (by omega : page - 1 < page), Nat.add_zero, Nat.mul_comm]
  funext a
  simp only [mmap_fixed, zero_range, e1, e2]

/-- Where its assertion holds, `PALFBSD::zero` clears the block and nothing
else, whether fresh pages are mapped or not. -/
theorem PALFBSD_zero_exact (page : Nat) (page_aligned mmap_ok : Bool) (mem : Memory)
    (p size : Nat) (h : PALFBSD_zero_assert page page_aligned p size = true) :
    PALFBSD_zero page page_aligned mmap_ok mem p size = zero_range mem p size := by
  unfold PALFBSD_zero
  cases hc : (page_aligned || is_aligned_block page p size) with
  | false => simp
  | true =>
    have ha : is_aligned_block page p size = true := by
      simpa [PALFBSD_zero_assert, hc] using h
    cases mmap_ok <;> simp [mmap_fixed_aligned page mem p size ha]

/-- After `PALFBSD::zero` every byte of the block is zero. -/
theorem PALFBSD_zero_block (page : Nat) (hpage : 0 < page) (page_aligned mmap_ok : Bool)
    (mem : Memory) (p size a : Nat) (h1 : p ≤ a) (h2 : a < p + size) :
    PALFBSD_zero page page_aligned mmap_ok mem p size a = 0 := by
  have hz : zero_range mem p size a = 0 := by simp [zero_range, h1, h2]
  have hm : mmap_fixed page mem p size a = 0 := by
    have hlo : p / page * page ≤ p := Nat.div_mul_le_self p page
    have hhi : p + size ≤ (p + size + page - 1) / page * page := by
      have h3 := Nat.div_add_mod (p + size + page - 1) page
      have h4 := Nat.mod_lt (p + size + page - 1) hpage
      rw [Nat.mul_comm] at h3
      omega
    simp only [mmap_fixed]
    rw [if_pos ⟨by omega, by omega⟩]
  unfold PALFBSD_zero
  split
  · split
    · exact hm
    · exact hz
  · exact hz

/-- A byte outside the block and outside the pages that overlap it is not
changed by `PALFBSD::zero`. -/
theorem PALFBSD_zero_frame (page : Nat) (page_aligned mmap_ok : Bool) (mem : Memory)
    (p size a : Nat) (h1 : ¬ (p ≤ a ∧ a < p + size))
    (h2 : ¬ (p / page * page ≤ a ∧ a < (p + size + page - 1) / page * page)) :
    PALFBSD_zero page page_aligned mmap_ok mem p size a = mem a := by
  have hz : zero_range mem p size a = mem a := by simp only [zero_range]; rw [if_neg h1]
  have hm : mmap_fixed page mem p size a = mem a := by simp only [mmap_fixed]; rw [if_neg h2]
  unfold PALFBSD_zero
  split
  · split
    · exact hm
    · exact hz
  · exact hz

/-- A 16-bit value is stored unchanged in a `Mod<SLAB_SIZE, uint16_t>`. -/
theorem mod_slab_of_lt {v : Nat} (h : v < 65536) : mod_slab v = v := by
  unfold mod_slab uint16_t SLAB_SIZE; omega

/-- The index of the pointer at offset `o` of the slab is `o`. -/
theorem pointer_to_index_add (E : Env) (o : Nat) (h : o < 65536) :
    pointer_to_index E (E.slab + o) = o := by
  unfold pointer_to_index
  have : ((E.slab + o : Nat) : Int) - (E.slab : Int) = (o : Int) := by push_cast; ring
  rw [this]
  omega

theorem mul_even (k n : Nat) (h : n % 2 = 0) : (k * n) % 2 = 0 := by
  rw [Nat.mul_mod, h]; simp

theorem Slot.even {E : Env} (hw : E.well_formed) {o : Nat} (h : Slot E o) : o % 2 = 0 := by
  obtain ⟨k, hk, _⟩ := h
  obtain ⟨_, h2, h3, _, _⟩ := hw
  have := mul_even k E.size h2
  omega

theorem Slot.lt {E : Env} (hw : E.well_formed) {o : Nat} (h : Slot E o) : o < 65536 := by
  obtain ⟨k, _, hk⟩ := h
  obtain ⟨h1, _⟩ := hw
  unfold SLAB_SIZE at hk
  omega

theorem Slot.ge {E : Env} {o : Nat} (h : Slot E o) : E.slab_offset - 1 ≤ o := by
  obtain ⟨k, hk, _⟩ := h
  omega

theorem Slot.mod {E : Env} {o : Nat} (h : Slot E o) : (o - (E.slab_offset - 1)) % E.size = 0 := by
  obtain ⟨k, hk, _⟩ := h
  have : o - (E.slab_offset - 1) = k * E.size := by omega
  rw [this]; simp

theorem slot_first {E : Env} (hw : E.well_formed) : Slot E (E.slab_offset - 1) := by
  obtain ⟨_, _, _, h4, _⟩ := hw
  exact ⟨0, by simp, h4⟩

/-- Two different slots do not overlap. -/
theorem slot_disjoint {E : Env} {a b : Nat} (ha : Slot E a) (hb : Slot E b) (hab : a ≠ b) :
    a + E.size ≤ b ∨ b + E.size ≤ a := by
  obtain ⟨i, hi, _⟩ := ha
  obtain ⟨j, hj, _⟩ := hb
  rcases Nat.lt_trichotomy i j with h | h | h
  · left
    have := Nat.mul_le_mul_right E.size (Nat.succ_le_of_lt h)
    rw [Nat.succ_mul] at this
    omega
  · subst h; omega
  · right
    have := Nat.mul_le_mul_right E.size (Nat.succ_le_of_lt h)
    rw [Nat.succ_mul] at this
    omega

/-- The slot behind a slot that does not end the slab. -/
theorem slot_next {E : Env} (hw : E.well_formed) {o : Nat} (h : Slot E o)
    (hlt : o + E.size < SLAB_SIZE) : Slot E (o + E.size) := by
  obtain ⟨k, hk, _⟩ := h
  obtain ⟨h1, _, _, h4, h5⟩ := hw
  obtain ⟨K, hK⟩ := Nat.dvd_of_mod_eq_zero h5
  refine ⟨k + 1, by rw [Nat.add_mul]; omega, ?_⟩
  have hkK : k + 1 < K := by
    by_contra hc
    have := Nat.mul_le_mul_left E.size (Nat.le_of_not_lt hc)
    rw [Nat.mul_add] at this
    rw [Nat.mul_comm k] at hk
    omega
  have := Nat.mul_le_mul_left E.size (Nat.succ_le_of_lt hkK)
  rw [Nat.succ_eq_add_one, Nat.mul_add, Nat.mul_add] at this
  rw [Nat.mul_comm k] at hk
  omega

/-- The free list depends on the first two bytes of its blocks only. -/
theorem chain_congr (E : Env) (m1 m2 : Memory) :
    ∀ (fl : List Nat) (h t : Nat),
      (∀ o ∈ fl, m2 (E.slab + o) = m1 (E.slab + o) ∧ m2 (E.slab + o + 1) = m1 (E.slab + o + 1)) →
      Chain E m1 h fl t → Chain E m2 h fl t
  | [], _, _, _, hc => hc
  | o :: fl, h, t, hm, hc => by
    obtain ⟨h1, h2⟩ := hc
    have ho := hm o (List.mem_cons_self _ _)
    refine ⟨h1, ?_⟩
    rw [load16_congr m2 m1 (E.slab + o) ho.1 ho.2]
    exact chain_congr E m1 m2 fl _ t (fun a ha => hm a (List.mem_cons_of_mem _ ha)) h2

/-! ## The branches of `alloc` and `dealloc` -/

/-- The memory after `alloc`: what `PALFBSD::zero` leaves, or nothing changed. -/
theorem alloc_mem (E : Env) (z : Bool) (r : Nat) (s : SlabState) :
    (alloc E z r s).2.1.mem =
      if z then PALFBSD_zero E.OS_PAGE_SIZE (decide (¬ r < E.PAGE_ALIGNED_SIZE))
        (E.mmap_ok (alloc E z r s).1 r) s.mem (alloc E z r s).1 r
      else s.mem := by
  unfold alloc
  cases z <;> simp

/-- The free-list branch of `alloc`. -/
theorem alloc_free_list (E : Env) (z : Bool) (r : Nat) (s : SlabState)
    (h : s.meta.head % 2 = 0) :
    (alloc E z r s).1 = E.slab + s.meta.head ∧
    (alloc E z r s).2.1.meta = Metaslab.mk (uint16_t (s.meta.used + 1))
      (load16 s.mem (E.slab + s.meta.head)) s.meta.link ∧
    (alloc E z r s).2.2.filter Call.is_list_op = [] := by
  have hl := mod_slab_of_lt (load16_lt s.mem (E.slab + s.meta.head))
  unfold alloc
  cases z <;> simp [h, hl, Metaslab.add_use, Call.is_list_op]

/-- The branch of `alloc` that takes the link block. -/
theorem alloc_exhausted (E : Env) (z : Bool) (r : Nat) (s : SlabState)
    (h : s.meta.head = 1) :
    (alloc E z r s).1 = E.slab + s.meta.link ∧
    (alloc E z r s).2.1.meta = Metaslab.mk (uint16_t (s.meta.used + 1)) 1 1 ∧
    (alloc E z r s).2.2.filter Call.is_list_op = [Call.pop] := by
  have h1 : mod_slab 1 = 1 := mod_slab_of_lt (by omega)
  unfold alloc
  cases z <;> simp [h, h1, Metaslab.add_use, Metaslab.set_full, Call.is_list_op]

/-- The masked bump of `head` is the sum modulo `SLAB_SIZE`. -/
theorem bump_head (h r : Nat) :
    mod_slab ((h + uint16_t r) &&& (SLAB_SIZE - 1)) = (h + r) % SLAB_SIZE := by
  have e : SLAB_SIZE - 1 = 2 ^ 16 - 1 := by unfold SLAB_SIZE; norm_num
  rw [e, Nat.and_pow_two_sub_one_eq_mod]
  unfold mod_slab uint16_t SLAB_SIZE
  omega

/-- The bump branch of `alloc`. -/
theorem alloc_bump (E : Env) (z : Bool) (r : Nat) (s : SlabState)
    (h : s.meta.head % 2 = 1) (h1 : s.meta.head ≠ 1) :
    (alloc E z r s).1 = E.slab + (s.meta.head - 1) ∧
    (alloc E z r s).2.1.meta = Metaslab.mk (uint16_t (s.meta.used + 1))
      ((s.meta.head + r) % SLAB_SIZE) s.meta.link ∧
    (alloc E z r s).2.2.filter Call.is_list_op = [] := by
  have hb := bump_head s.meta.head r
  unfold alloc
  cases z <;> simp [h, h1, hb, Metaslab.add_use, Call.is_list_op]

theorem sub_use_used (m : Metaslab) (h0 : 0 < m.used) (h1 : m.used < 65536) :
    m.sub_use.used = m.used - 1 := by
  show dec16 m.used = m.used - 1
  unfold dec16
  omega

/-- The branch of `dealloc` that takes a Full slab back to the free-slab list. -/
theorem dealloc_from_full (E : Env) (p : Nat) (s : SlabState) (hf : s.meta.link = 1)
    (hu : dec16 s.meta.used ≠ 0) :
    dealloc E p s = (Action.NoSlabReturn,
      SlabState.mk (Metaslab.mk (dec16 s.meta.used) s.meta.head (pointer_to_index E p)) s.mem,
      [Call.insert E.sizeclass (E.slab + pointer_to_index E p)]) := by
  have hp : mod_slab (pointer_to_index E p) = pointer_to_index E p :=
    mod_slab_of_lt (by unfold pointer_to_index; omega)
  unfold dealloc
  simp [hf, hu, hp, Metaslab.is_full, Metaslab.sub_use, Metaslab.is_unused, Metaslab.get_link]

/-- The branch of `dealloc` that returns a Full slab of one object. -/
theorem dealloc_full_last (E : Env) (p : Nat) (s : SlabState) (hf : s.meta.link = 1)
    (hu : dec16 s.meta.used = 0) :
    dealloc E p s = (Action.returned_by (reclaim_call E),
      SlabState.mk (Metaslab.mk 0 s.meta.head 1) s.mem,
      [reclaim_call E]) := by
  unfold dealloc
  simp [hf, hu, Metaslab.is_full, Metaslab.sub_use, Metaslab.is_unused]

/-- The branch of `dealloc` that returns a slab that was not Full. -/
theorem dealloc_last (E : Env) (p : Nat) (s : SlabState) (hf : s.meta.link ≠ 1)
    (hu : dec16 s.meta.used = 0) :
    dealloc E p s = (Action.returned_by (reclaim_call E),
      SlabState.mk (Metaslab.mk 0 s.meta.head s.meta.link) s.mem,
      [Call.remove E.sizeclass (E.slab + s.meta.link), reclaim_call E]) := by
  unfold dealloc
  simp [hf, hu, Metaslab.is_full, Metaslab.sub_use, Metaslab.is_unused, Metaslab.get_link]

/-- The branch of `dealloc` that pushes the block on the free list. -/
theorem dealloc_ordinary (E : Env) (p : Nat) (s : SlabState) (hf : s.meta.link ≠ 1)
    (hu : dec16 s.meta.used ≠ 0) :
    dealloc E p s = (Action.NoSlabReturn,
      SlabState.mk (Metaslab.mk (dec16 s.meta.used) (pointer_to_index E p) s.meta.link)
        (store16 s.mem p s.meta.head), []) := by
  have hp : mod_slab (pointer_to_index E p) = pointer_to_index E p :=
    mod_slab_of_lt (by unfold pointer_to_index; omega)
  unfold dealloc
  simp [hf, hu, hp, Metaslab.is_full, Metaslab.sub_use, Metaslab.is_unused]

/-! ## Preservation of the invariant -/

/-- The free list is not affected by a change of memory inside another slot. -/
theorem chain_frame {E : Env} (hw : E.well_formed) (m1 m2 : Memory) (q : Nat) (hq : Slot E q)
    (hm : ∀ b, ¬ (E.slab + q ≤ b ∧ b < E.slab + q + E.size) → m2 b = m1 b)
    (fl : List Nat) (h t : Nat) (hs : ∀ o ∈ fl, Slot E o) (hn : q ∉ fl)
    (hc : Chain E m1 h fl t) : Chain E m2 h fl t := by
  apply chain_congr E m1 m2 fl h t _ hc
  intro o ho
  have hd := slot_disjoint (hs o ho) hq (by rintro rfl; exact hn ho)
  obtain ⟨h1, h2, _⟩ := hw
  constructor <;> apply hm <;> omega

theorem used_bound {a sz : Nat} (h : a * sz + sz ≤ 65536) (h2 : 2 ≤ sz) : a + 1 < 65536 := by
  by_contra hc
  have := Nat.mul_le_mul (Nat.le_of_not_lt hc) h2
  rw [Nat.add_mul] at this
  omega

theorem size_ge_two {E : Env} (hw : E.well_formed) : 2 ≤ E.size := by
  obtain ⟨h1, h2, _⟩ := hw
  omega

/-- The freshly initialised slab satisfies the invariant. -/
theorem inv_fresh {E : Env} (hw : E.well_formed) (mem : Memory) : Inv E (fresh E mem) := by
  have hsz := size_ge_two hw
  have hf := slot_first hw
  obtain ⟨h1, h2, h3, h4, h5⟩ := hw
  have hw : E.well_formed := ⟨h1, h2, h3, h4, h5⟩
  unfold SLAB_SIZE at h4
  have hlink : mod_slab (E.slab_offset - 1) = E.slab_offset - 1 := mod_slab_of_lt (by omega)
  refine ⟨List.nodup_nil, by simp [fresh], by simp [fresh, fresh_meta], ?_, ?_⟩
  · intro h
    simp only [fresh, fresh_meta, hlink] at h
    omega
  · intro _
    by_cases hc : E.slab_offset - 1 + E.size = 65536
    · have hhead : mod_slab (E.slab_offset + E.size) = 1 := by
        unfold mod_slab uint16_t SLAB_SIZE; omega
      refine ⟨[], 1, ?_⟩
      constructor <;> (try simp [fresh, fresh_meta, hlink, hhead, Chain, SLAB_SIZE])
      · exact hf
      · omega
    · have hhead : mod_slab (E.slab_offset + E.size) = E.slab_offset + E.size :=
        mod_slab_of_lt (by omega)
      have hn := slot_next hw hf (by unfold SLAB_SIZE; omega)
      refine ⟨[], E.slab_offset + E.size, ?_⟩
      have e : E.slab_offset + E.size - 1 = E.slab_offset - 1 + E.size := by omega
      constructor <;> (try simp [fresh, fresh_meta, hlink, hhead, Chain, SLAB_SIZE, e])
      · omega
      · omega
      · exact hf
      · intro _; exact ⟨hn, by omega⟩
      · split <;> omega

/-- On a state satisfying the invariant, `alloc` returns a slot of the slab. -/
theorem alloc_ptr_slot {E : Env} (hw : E.well_formed) {y : Sys} (hi : Inv E y)
    (hl : y.st.meta.link ≠ 1) (z : Bool) :
    ∃ o, (alloc E z E.size y.st).1 = E.slab + o ∧ Slot E o := by
  obtain ⟨fl, t, hs⟩ := hi.space hl
  cases fl with
  | nil =>
    have hh : y.st.meta.head = t := hs.chain
    by_cases ht : t = 1
    · exact ⟨_, (alloc_exhausted E z E.size y.st (by rw [hh, ht])).1, hs.link_slot⟩
    · exact ⟨_, (alloc_bump E z E.size y.st (by rw [hh]; exact hs.t_odd)
        (by rw [hh]; exact ht)).1, by rw [hh]; exact (hs.bump ht).2.1⟩
  | cons o rest =>
    obtain ⟨hh, -⟩ := hs.chain
    have hso := hs.fl_slot o (List.mem_cons_self _ _)
    exact ⟨_, (alloc_free_list E z E.size y.st (by rw [hh]; exact hso.even hw)).1,
      by rw [hh]; exact hso⟩

/-- On a layout of whole pages the assertion of `PALFBSD::zero` holds for the
zeroing of every slot. -/
theorem zero_assert_slot {E : Env} (hpg : E.whole_pages) {o : Nat} (hs : Slot E o) :
    PALFBSD_zero_assert E.OS_PAGE_SIZE (decide (¬ E.size < E.PAGE_ALIGNED_SIZE)) (E.slab + o)
      E.size = true := by
  by_cases hlt : E.size < E.PAGE_ALIGNED_SIZE
  · cases hb : is_aligned_block E.OS_PAGE_SIZE (E.slab + o) E.size <;>
      simp [PALFBSD_zero_assert, hlt, hb]
  · obtain ⟨_, h1, h2⟩ := hpg (by omega)
    obtain ⟨k, hk, -⟩ := hs
    have hd : E.OS_PAGE_SIZE ∣ E.slab + o := by
      rw [hk, ← Nat.add_assoc]
      exact Nat.dvd_add (Nat.dvd_of_mod_eq_zero h2)
        (Dvd.dvd.mul_left (Nat.dvd_of_mod_eq_zero h1) k)
    have ha : is_aligned_block E.OS_PAGE_SIZE (E.slab + o) E.size = true := by
      simp only [is_aligned_block, Bool.and_eq_true, beq_iff_eq]
      exact ⟨Nat.mod_eq_zero_of_dvd hd, h1⟩
    simp [PALFBSD_zero_assert, ha]

/-- On a layout of whole pages and a state satisfying the invariant, `alloc`
zeroes the returned block and nothing else. -/
theorem alloc_mem_exact {E : Env} (hw : E.well_formed) (hpg : E.whole_pages) {y : Sys}
    (hi : Inv E y) (hl : y.st.meta.link ≠ 1) (z : Bool) :
    (alloc E z E.size y.st).2.1.mem =
      if z then zero_range y.st.mem (alloc E z E.size y.st).1 E.size else y.st.mem := by
  obtain ⟨o, ho, hs⟩ := alloc_ptr_slot hw hi hl z
  rw [alloc_mem]
  cases z with
  | false => rfl
  | true =>
    simp only [if_true]
    rw [ho]
    exact PALFBSD_zero_exact _ _ _ _ _ _ (zero_assert_slot hpg hs)

/-- A call of `alloc` on a slab that is not Full keeps the invariant. -/
theorem inv_alloc {E : Env} (hw : E.well_formed) (hpg : E.whole_pages) {y : Sys}
    (hi : Inv E y) (hl : y.st.meta.link ≠ 1) (z : Bool) :
    Inv E { st := (alloc E z E.size y.st).2.1, live := (alloc E z E.size y.st).1 :: y.live,
            returned := false } := by
  obtain ⟨fl, t, hs⟩ := hi.space hl
  have hsz := size_ge_two hw
  have htot := hs.total
  have hub : y.st.meta.used + 1 < 65536 :=
    used_bound (by unfold SLAB_SIZE at htot; omega) hsz
  have hu : uint16_t (y.st.meta.used + 1) = y.st.meta.used + 1 := by unfold uint16_t; omega
  have hmem := alloc_mem_exact hw hpg hi hl z
  cases fl with
  | nil =>
    have hh : y.st.meta.head = t := hs.chain
    by_cases ht : t = 1
    · obtain ⟨hp, hm, -⟩ := alloc_exhausted E z E.size y.st (by rw [hh, ht])
      rw [hu] at hm
      refine ⟨?_, ?_, ?_, ?_, ?_⟩
      · show ((alloc E z E.size y.st).1 :: y.live).Nodup
        rw [hp]
        exact List.nodup_cons.mpr ⟨hs.link_live, hi.live_nodup⟩
      · show ∀ p ∈ (alloc E z E.size y.st).1 :: y.live, ∃ o, p = E.slab + o ∧ Slot E o
        intro p hpm
        rcases List.mem_cons.mp hpm with h | h
        · exact ⟨y.st.meta.link, by rw [h, hp], hs.link_slot⟩
        · exact hi.live_slot p h
      · show (alloc E z E.size y.st).2.1.meta.used = ((alloc E z E.size y.st).1 :: y.live).length
        rw [hm]; simp [hi.used_eq]
      · intro _
        show (alloc E z E.size y.st).2.1.meta.head = 1 ∧
          (alloc E z E.size y.st).2.1.meta.used * E.size + (E.slab_offset - 1) = SLAB_SIZE
        rw [hm]
        refine ⟨rfl, ?_⟩
        show (y.st.meta.used + 1) * E.size + (E.slab_offset - 1) = SLAB_SIZE
        rw [Nat.add_mul]
        simp only [ht, if_true, List.length_nil] at htot
        omega
      · intro hne
        exfalso
        apply hne
        show (alloc E z E.size y.st).2.1.meta.link = 1
        rw [hm]
    · have hodd := hs.t_odd
      have hlt := hs.t_lt
      obtain ⟨hp, hm, -⟩ := alloc_bump E z E.size y.st (by rw [hh]; exact hodd) (by rw [hh]; exact ht)
      rw [hu, hh] at hm
      rw [hh] at hp
      obtain ⟨hlk, hslot, hpay, -, hlive⟩ := hs.bump ht
      have hfit : t - 1 + E.size ≤ SLAB_SIZE := by obtain ⟨_, _, h⟩ := hslot; exact h
      have hev : E.size % 2 = 0 := hw.2.1
      simp only [ht, if_false, List.length_nil] at htot
      refine ⟨?_, ?_, ?_, ?_, ?_⟩
      · show ((alloc E z E.size y.st).1 :: y.live).Nodup
        rw [hp]
        refine List.nodup_cons.mpr ⟨fun hmem => ?_, hi.live_nodup⟩
        have := hlive _ hmem
        omega
      · show ∀ p ∈ (alloc E z E.size y.st).1 :: y.live, ∃ o, p = E.slab + o ∧ Slot E o
        intro p hpm
        rcases List.mem_cons.mp hpm with h | h
        · exact ⟨t - 1, by rw [h, hp], hslot⟩
        · exact hi.live_slot p h
      · show (alloc E z E.size y.st).2.1.meta.used = ((alloc E z E.size y.st).1 :: y.live).length
        rw [hm]; simp [hi.used_eq]
      · intro hc
        exfalso
        apply hl
        have : (alloc E z E.size y.st).2.1.meta.link = 1 := hc
        rw [hm] at this
        exact this
      · intro _
        by_cases hend : t - 1 + E.size = SLAB_SIZE
        · have hhead : (t + E.size) % SLAB_SIZE = 1 := by unfold SLAB_SIZE at *; omega
          rw [hhead] at hm
          refine ⟨[], 1, ?_⟩
          constructor
          all_goals (try simp only [hm, hp, Chain, List.length_nil])
          · unfold SLAB_SIZE; omega
          · exact List.nodup_nil
          · simp
          · simp
          · exact hs.link_slot
          · simp
          · intro hmem
            rcases List.mem_cons.mp hmem with h | h
            · omega
            · exact hs.link_live h
          · intro hc; exact absurd rfl hc
          · rw [Nat.add_mul]
            simp only [if_true]
            omega
        · have hlt2 : t - 1 + E.size < SLAB_SIZE := by omega
          have hhead : (t + E.size) % SLAB_SIZE = t + E.size := by unfold SLAB_SIZE at *; omega
          rw [hhead] at hm
          have hnext := slot_next hw hslot hlt2
          have e : t + E.size - 1 = t - 1 + E.size := by omega
          refine ⟨[], t + E.size, ?_⟩
          constructor
          all_goals (try simp only [hm, hp, Chain, List.length_nil])
          · omega
          · unfold SLAB_SIZE at *; omega
          · exact List.nodup_nil
          · simp
          · simp
          · exact hs.link_slot
          · simp
          · intro hmem
            rcases List.mem_cons.mp hmem with h | h
            · omega
            · exact hs.link_live h
          · intro _
            rw [e]
            refine ⟨hlk, hnext, by omega, by simp, ?_⟩
            intro p hpm
            rcases List.mem_cons.mp hpm with h | h
            · omega
            · have := hlive p h
              omega
          · rw [Nat.add_mul, e]
            have hne : t + E.size ≠ 1 := by omega
            simp only [hne, if_false]
            omega
  | cons o rest =>
    obtain ⟨hh, hch⟩ := hs.chain
    have hso : Slot E o := hs.fl_slot o (List.mem_cons_self _ _)
    have hev := hso.even hw
    obtain ⟨hp, hm, -⟩ := alloc_free_list E z E.size y.st (by rw [hh]; exact hev)
    rw [hu, hh] at hm
    rw [hh] at hp
    obtain ⟨hnot, hnd⟩ := List.nodup_cons.mp hs.fl_nodup
    have holive := hs.fl_live o (List.mem_cons_self _ _)
    refine ⟨?_, ?_, ?_, ?_, ?_⟩
    · show ((alloc E z E.size y.st).1 :: y.live).Nodup
      rw [hp]
      exact List.nodup_cons.mpr ⟨holive, hi.live_nodup⟩
    · show ∀ p ∈ (alloc E z E.size y.st).1 :: y.live, ∃ o, p = E.slab + o ∧ Slot E o
      intro p hpm
      rcases List.mem_cons.mp hpm with h | h
      · exact ⟨o, by rw [h, hp], hso⟩
      · exact hi.live_slot p h
    · show (alloc E z E.size y.st).2.1.meta.used = ((alloc E z E.size y.st).1 :: y.live).length
      rw [hm]; simp [hi.used_eq]
    · intro hc
      exfalso
      apply hl
      have : (alloc E z E.size y.st).2.1.meta.link = 1 := hc
      rw [hm] at this
      exact this
    · intro _
      refine ⟨rest, t, ?_⟩
      constructor
      all_goals (try simp only [hm, hp])
      · refine chain_frame hw y.st.mem _ o hso ?_ rest _ t
          (fun a h => hs.fl_slot a (List.mem_cons_of_mem _ h)) hnot hch
        intro b hb
        rw [hmem, hp]
        cases z
        · simp
        · simp only [zero_range, if_true]
          rw [if_neg (by omega)]
      · exact hs.t_odd
      · exact hs.t_lt
      · exact hnd
      · exact fun a h => hs.fl_slot a (List.mem_cons_of_mem _ h)
      · intro a ha hmem
        rcases List.mem_cons.mp hmem with h | h
        · have : a = o := by omega
          exact hnot (this ▸ ha)
        · exact hs.fl_live a (List.mem_cons_of_mem _ ha) h
      · exact hs.link_slot
      · exact fun h => hs.link_fl (List.mem_cons_of_mem _ h)
      · intro hmem
        rcases List.mem_cons.mp hmem with h | h
        · have : y.st.meta.link = o := by omega
          exact hs.link_fl (this ▸ List.mem_cons_self _ _)
        · exact hs.link_live h
      · intro ht
        obtain ⟨h1, h2, h3, h4, h5⟩ := hs.bump ht
        refine ⟨h1, h2, h3, fun a h => h4 a (List.mem_cons_of_mem _ h), ?_⟩
        intro p hpm
        rcases List.mem_cons.mp hpm with h | h
        · have := h4 o (List.mem_cons_self _ _)
          omega
        · exact h5 p h
      · rw [Nat.add_mul]
        simp only [List.length_cons, Nat.add_mul] at htot
        omega

theorem Shape.head_lt {E : Env} (hw : E.well_formed) {y : Sys} {fl : List Nat} {t : Nat}
    (hs : Shape E y fl t) : y.st.meta.head < 65536 := by
  cases fl with
  | nil =>
    have h : y.st.meta.head = t := hs.chain
    have := hs.t_lt
    unfold SLAB_SIZE at this
    omega
  | cons o rest =>
    obtain ⟨hh, -⟩ := hs.chain
    rw [hh]
    exact (hs.fl_slot o (List.mem_cons_self _ _)).lt hw

theorem Inv.used_lt {E : Env} (hw : E.well_formed) {y : Sys} (hi : Inv E y) :
    y.st.meta.used < 65536 := by
  have hsz := size_ge_two hw
  by_cases hl : y.st.meta.link = 1
  · obtain ⟨-, h⟩ := hi.full hl
    unfold SLAB_SIZE at h
    by_contra hc
    have := Nat.mul_le_mul (Nat.le_of_not_lt hc) hsz
    omega
  · obtain ⟨fl, t, hs⟩ := hi.space hl
    have h := hs.total
    unfold SLAB_SIZE at h
    have hb : y.st.meta.used * E.size + E.size ≤ 65536 := by omega
    have := used_bound hb hsz
    omega

/-- A call of `dealloc` on a block handed out keeps the invariant of a run. -/
theorem good_dealloc {E : Env} (hw : E.well_formed) {y : Sys} (hi : Inv E y) {p : Nat}
    (hp : p ∈ y.live) :
    Good E { st := (dealloc E p y.st).2.1, live := y.live.erase p,
             returned := decide ((dealloc E p y.st).1 ≠ Action.NoSlabReturn) } := by
  obtain ⟨o, rfl, hso⟩ := hi.live_slot p hp
  have hsz := size_ge_two hw
  have hult := hi.used_lt hw
  have hupos : 0 < y.st.meta.used := by
    rw [hi.used_eq]; exact List.length_pos_of_mem hp
  have hu : dec16 y.st.meta.used = y.st.meta.used - 1 := by
    unfold dec16; omega
  have hidx := pointer_to_index_add E o (hso.lt hw)
  have hev := hso.even hw
  have hnd := hi.live_nodup.erase (E.slab + o)
  have hlen : (y.live.erase (E.slab + o)).length = y.st.meta.used - 1 := by
    rw [List.length_erase_of_mem hp, hi.used_eq]
  have hsl : ∀ q ∈ y.live.erase (E.slab + o), ∃ a, q = E.slab + a ∧ Slot E a :=
    fun q hq => hi.live_slot q (List.mem_of_mem_erase hq)
  have hnotin : E.slab + o ∉ y.live.erase (E.slab + o) := hi.live_nodup.not_mem_erase
  by_cases hl : y.st.meta.link = 1
  · obtain ⟨hhead, hfull⟩ := hi.full hl
    by_cases h1 : y.st.meta.used - 1 = 0
    · have hd := dealloc_full_last E (E.slab + o) y.st hl (by rw [hu]; exact h1)
      rw [hd]
      refine ⟨fun h => by simp at h, fun _ => ⟨rfl, fun _ => ?_⟩⟩
      have : y.st.meta.used = 1 := by omega
      rw [this] at hfull
      omega
    · have hd := dealloc_from_full E (E.slab + o) y.st hl (by rw [hu]; exact h1)
      rw [hd, hu, hidx]
      refine ⟨fun _ => ⟨hnd, hsl, hlen.symm, ?_, ?_⟩, fun h => by simp at h⟩
      · intro hc
        have : o = 1 := hc
        omega
      · intro _
        refine ⟨[], 1, ?_⟩
        constructor
        all_goals (try simp only [Chain, List.length_nil])
        · exact hhead
        · unfold SLAB_SIZE; omega
        · exact List.nodup_nil
        · simp
        · simp
        · exact hso
        · simp
        · exact hnotin
        · intro hc; exact absurd rfl hc
        · simp only [if_true]
          obtain ⟨n, hn⟩ : ∃ n, y.st.meta.used = n + 1 := ⟨y.st.meta.used - 1, by omega⟩
          rw [hn, Nat.add_mul] at hfull
          rw [hn]
          simp only [Nat.add_sub_cancel]
          omega
  · obtain ⟨fl, t, hs⟩ := hi.space hl
    by_cases h1 : y.st.meta.used - 1 = 0
    · have hd := dealloc_last E (E.slab + o) y.st hl (by rw [hu]; exact h1)
      rw [hd]
      exact ⟨fun h => by simp at h, fun _ => ⟨rfl, fun h => absurd h hl⟩⟩
    · have hd := dealloc_ordinary E (E.slab + o) y.st hl (by rw [hu]; exact h1)
      rw [hd, hu, hidx]
      have hofl : o ∉ fl := fun h => hs.fl_live o h hp
      have hhlt := hs.head_lt hw
      refine ⟨fun _ => ⟨hnd, hsl, hlen.symm, fun hc => absurd hc hl, fun _ => ?_⟩,
        fun h => by simp at h⟩
      refine ⟨o :: fl, t, ?_⟩
      constructor
      all_goals (try simp only [Chain, List.length_cons])
      · refine ⟨trivial, ?_⟩
        rw [load16_store16 _ _ _ hhlt]
        refine chain_frame hw y.st.mem _ o hso ?_ fl _ t hs.fl_slot hofl hs.chain
        intro b hb
        unfold store16
        rw [if_neg (by omega), if_neg (by omega)]
      · exact hs.t_odd
      · exact hs.t_lt
      · exact List.nodup_cons.mpr ⟨hofl, hs.fl_nodup⟩
      · intro a ha
        rcases List.mem_cons.mp ha with h | h
        · rw [h]; exact hso
        · exact hs.fl_slot a h
      · intro a ha hmem
        rcases List.mem_cons.mp ha with h | h
        · rw [h] at hmem; exact hnotin hmem
        · exact hs.fl_live a h (List.mem_of_mem_erase hmem)
      · exact hs.link_slot
      · intro hmem
        rcases List.mem_cons.mp hmem with h | h
        · exact hs.link_live (h ▸ hp)
        · exact hs.link_fl h
      · exact fun hmem => hs.link_live (List.mem_of_mem_erase hmem)
      · intro ht
        obtain ⟨b1, b2, b3, b4, b5⟩ := hs.bump ht
        refine ⟨b1, b2, b3, ?_, fun q hq => b5 q (List.mem_of_mem_erase hq)⟩
        intro a ha
        rcases List.mem_cons.mp ha with h | h
        · have := b5 _ hp
          omega
        · exact b4 a h
      · have htot := hs.total
        obtain ⟨n, hn⟩ : ∃ n, y.st.meta.used = n + 1 := ⟨y.st.meta.used - 1, by omega⟩
        rw [hn, Nat.add_mul] at htot
        rw [hn, Nat.add_mul]
        simp only [Nat.add_sub_cancel]
        omega

/-- A store by the owner of the byte keeps the invariant. -/
theorem inv_store {E : Env} (hw : E.well_formed) {y : Sys} (hi : Inv E y) {a : Nat} (v : Nat)
    (hok : store_ok E y a = true) :
    Inv E { y with st := { y.st with mem := fun b => if b = a then v % 256 else y.st.mem b } } := by
  refine ⟨hi.live_nodup, hi.live_slot, hi.used_eq, hi.full, ?_⟩
  intro hl
  obtain ⟨fl, t, hs⟩ := hi.space hl
  have key : ∃ q, Slot E q ∧ q ∉ fl ∧ E.slab + q ≤ a ∧ a < E.slab + q + E.size := by
    simp only [store_ok, Bool.or_eq_true, List.any_eq_true, in_block, Bool.and_eq_true,
      decide_eq_true_eq, Metaslab.get_link] at hok
    rcases hok with ⟨p, hp, h1, h2⟩ | ⟨-, h1, h2⟩
    · obtain ⟨q, rfl, hq⟩ := hi.live_slot p hp
      exact ⟨q, hq, fun h => hs.fl_live q h hp, h1, h2⟩
    · exact ⟨y.st.meta.link, hs.link_slot, hs.link_fl, h1, h2⟩
  obtain ⟨q, hq, hqfl, h1, h2⟩ := key
  refine ⟨fl, t, ⟨?_, hs.t_odd, hs.t_lt, hs.fl_nodup, hs.fl_slot, hs.fl_live, hs.link_slot,
    hs.link_fl, hs.link_live, hs.bump, hs.total⟩⟩
  refine chain_frame hw y.st.mem _ q hq ?_ fl _ t hs.fl_slot hqfl hs.chain
  intro b hb
  show (if b = a then v % 256 else y.st.mem b) = y.st.mem b
  rw [if_neg (by omega)]

/-- Every valid step keeps the invariant of a run. -/
theorem good_step {E : Env} (hw : E.well_formed) (hpg : E.whole_pages) {y y1 : Sys}
    (hg : Good E y) (op : Op) (h : step E y op = some y1) : Good E y1 := by
  cases op with
  | alloc z =>
    simp only [step] at h
    split at h
    · exact absurd h (by simp)
    · rename_i hc
      simp only [Bool.or_eq_true, not_or, Bool.not_eq_true, Metaslab.is_full, beq_eq_false_iff_ne] at hc
      cases Option.some.inj h
      exact ⟨fun _ => inv_alloc hw hpg (hg.1 hc.1) hc.2 z, fun hr => by simp at hr⟩
  | dealloc p =>
    simp only [step] at h
    split at h
    · exact absurd h (by simp)
    · rename_i hc
      simp only [Bool.or_eq_true, not_or, Bool.not_eq_true, Bool.not_eq_true',
        List.elem_eq_mem, decide_eq_false_iff_not, not_not] at hc
      cases Option.some.inj h
      exact good_dealloc hw (hg.1 hc.1) (by simpa using hc.2)
  | store a v =>
    simp only [step] at h
    split at h
    · exact absurd h (by simp)
    · rename_i hc
      simp only [Bool.or_eq_true, not_or, Bool.not_eq_true, Bool.not_eq_true', Bool.not_eq_false] at hc
      cases Option.some.inj h
      exact ⟨fun _ => inv_store hw (hg.1 hc.1) v (by simpa using hc.2), fun hr => by
        have : y.returned = true := hr
        rw [hc.1] at this
        exact absurd this (by simp)⟩

theorem good_fresh {E : Env} (hw : E.well_formed) (mem : Memory) : Good E (fresh E mem) :=
  ⟨fun _ => inv_fresh hw mem, fun h => by simp [fresh] at h⟩

/-- Every valid run keeps the invariant of a run. -/
theorem good_run {E : Env} (hw : E.well_formed) (hpg : E.whole_pages) :
    ∀ (ops : List Op) (y y1 : Sys), Good E y → run E y ops = some y1 → Good E y1
  | [], y, y1, hg, h => by
    simp only [run] at h
    cases Option.some.inj h
    exact hg
  | op :: ops, y, y1, hg, h => by
    simp only [run] at h
    cases hs : step E y op with
    | none => rw [hs] at h; simp at h
    | some y2 =>
      rw [hs] at h
      exact good_run hw hpg ops y2 y1 (good_step hw hpg hg op hs) h

theorem offset_eq {E : Env} (hw : E.well_formed) : E.offset = E.slab_offset - 1 := by
  obtain ⟨h1, _, h3, h4, _⟩ := hw
  unfold Env.offset size_t_sub
  unfold SLAB_SIZE at h4
  omega

theorem slot_check {E : Env} (hw : E.well_formed) {o : Nat} (h : Slot E o) :
    size_t_sub o E.offset % E.size = 0 := by
  have h1 := h.ge
  have h2 := h.lt hw
  have h3 := h.mod
  rw [offset_eq hw]
  have : size_t_sub o (E.slab_offset - 1) = o - (E.slab_offset - 1) := by
    unfold size_t_sub; omega
  rw [this, h3]

/-- The loop of `debug_slab_invariant` follows the free list to its end, adding one
object size per block, without a failing assertion. -/
theorem debug_walk_chain {E : Env} (hw : E.well_formed) (link : Nat) (mem : Memory) :
    ∀ (fl : List Nat) (fuel h t acc : Nat), Chain E mem h fl t → t % 2 = 1 →
      (∀ o ∈ fl, Slot E o) → link ∉ fl → fl.length < fuel →
      acc + fl.length * E.size ≤ SLAB_SIZE →
      debug_walk E link mem fuel h acc = Walk.done t (acc + fl.length * E.size)
  | [], fuel, h, t, acc, hc, ht, _, _, hf, _ => by
    have hh : h = t := hc
    obtain ⟨f, rfl⟩ : ∃ f, fuel = f + 1 := ⟨fuel - 1, by simp at hf; omega⟩
    simp [debug_walk, hh, ht]
  | o :: rest, fuel, h, t, acc, hc, ht, hs, hl, hf, ha => by
    obtain ⟨hh, hc2⟩ := hc
    obtain ⟨f, rfl⟩ : ∃ f, fuel = f + 1 := ⟨fuel - 1, by simp at hf; omega⟩
    have hso := hs o (List.mem_cons_self _ _)
    have hev := hso.even hw
    have hchk := slot_check hw hso
    simp only [List.length_cons, Nat.add_mul, Nat.one_mul] at ha
    have hacc : size_t (acc + E.size) = acc + E.size := by
      unfold size_t SIZE_T_RANGE; unfold SLAB_SIZE at ha; omega
    have hne : o ≠ link := fun e => hl (e ▸ List.mem_cons_self _ _)
    have hle : SLAB_SIZE ≥ acc + E.size := by omega
    have ih := debug_walk_chain hw link mem rest f (load16 mem (E.slab + o)) t (acc + E.size)
      hc2 ht (fun a h => hs a (List.mem_cons_of_mem _ h))
      (fun h => hl (List.mem_cons_of_mem _ h)) (by simp at hf; omega) (by omega)
    rw [hh]
    simp only [debug_walk, Nat.and_one_is_mod, hev, hchk, hacc, hne, hle]
    simp only [List.length_cons, Nat.add_mul, Nat.one_mul]
    rw [ih]
    simp
    omega

/-- On a state satisfying the invariant, `debug_slab_invariant` passes with all of
the slab accounted for. -/
theorem debug_ok {E : Env} (hw : E.well_formed) {y : Sys} (hi : Inv E y) :
    debug_slab_invariant E y.st = Verdict.ok SLAB_SIZE := by
  have hoff := offset_eq hw
  have hsz := size_ge_two hw
  by_cases hl : y.st.meta.link = 1
  · obtain ⟨-, h⟩ := hi.full hl
    have hacc : size_t (y.st.meta.used * E.size + (E.slab_offset - 1)) = SLAB_SIZE := by
      rw [h]; rfl
    simp [debug_slab_invariant, Metaslab.is_full, hl, hoff, hacc]
  · obtain ⟨fl, t, hs⟩ := hi.space hl
    have htot := hs.total
    have htl := hs.t_lt
    have hto := hs.t_odd
    have hlen : fl.length < SLAB_SIZE + 2 := by
      have : fl.length * 1 ≤ fl.length * E.size := Nat.mul_le_mul_left _ (by omega)
      omega
    have hacc0 : size_t (y.st.meta.used * E.size + (E.slab_offset - 1))
        = y.st.meta.used * E.size + (E.slab_offset - 1) := by
      unfold size_t SIZE_T_RANGE; unfold SLAB_SIZE at htot; omega
    have hwalk := debug_walk_chain hw y.st.meta.link y.st.mem fl (SLAB_SIZE + 2) y.st.meta.head t
      (y.st.meta.used * E.size + (E.slab_offset - 1)) hs.chain hto hs.fl_slot hs.link_fl hlen
      (by omega)
    have hlt : y.st.meta.used * E.size + (E.slab_offset - 1) < SLAB_SIZE := by omega
    by_cases ht : t = 1
    · simp only [ht, if_true, Nat.add_zero] at htot
      have hfin : size_t (y.st.meta.used * E.size + (E.slab_offset - 1) + fl.length * E.size
          + E.size) = SLAB_SIZE := by
        rw [htot]; rfl
      simp [debug_slab_invariant, Metaslab.is_full, hl, hoff, hacc0, hlt, hwalk, ht, hfin]
    · simp only [ht, if_false] at htot
      obtain ⟨b1, b2, b3, -, -⟩ := hs.bump ht
      have hst : t / 2 * 2 = t - 1 := by omega
      have hchk := slot_check hw b2
      rw [hoff] at hchk
      have hlink : (y.st.meta.link : Int) = (E.slab_offset : Int) - 1 := by
        have := hw.2.2.1
        omega
      have hbump : size_t (y.st.meta.used * E.size + (E.slab_offset - 1) + fl.length * E.size
          + (SLAB_SIZE - (t - 1))) = y.st.meta.used * E.size + (E.slab_offset - 1)
          + fl.length * E.size + (SLAB_SIZE - (t - 1)) := by
        unfold size_t SIZE_T_RANGE; unfold SLAB_SIZE at htot ⊢; omega
      have hfin : size_t (y.st.meta.used * E.size + (E.slab_offset - 1) + fl.length * E.size
          + (SLAB_SIZE - (t - 1)) + E.size) = SLAB_SIZE := by
        rw [htot]; rfl
      simp [debug_slab_invariant, Metaslab.is_full, hl, hoff, hacc0, hlt, hwalk, ht, hst, hchk,
        hlink, hbump, hfin]

/-- The walk of the accounting property finds the free list. -/
theorem free_chain_eq {E : Env} (hw : E.well_formed) (mem : Memory) :
    ∀ (fl : List Nat) (fuel h t : Nat), Chain E mem h fl t → t % 2 = 1 →
      (∀ o ∈ fl, Slot E o) → fl.length ≤ fuel → free_chain E mem fuel h = (fl.length, t)
  | [], fuel, h, t, hc, ht, _, _ => by
    have hh : h = t := hc
    cases fuel with
    | zero => simp [free_chain, hh]
    | succ f => simp [free_chain, hh, ht]
  | o :: rest, fuel, h, t, hc, ht, hs, hf => by
    obtain ⟨hh, hc2⟩ := hc
    obtain ⟨f, rfl⟩ : ∃ f, fuel = f + 1 := ⟨fuel - 1, by simp at hf; omega⟩
    have hev := (hs o (List.mem_cons_self _ _)).even hw
    have ih := free_chain_eq hw mem rest f (load16 mem (E.slab + o)) t hc2 ht
      (fun a h => hs a (List.mem_cons_of_mem _ h)) (by simp at hf; omega)
    rw [hh]
    simp [free_chain, hev, ih]

/-- With the bytes in front of the payload, the sum of the accounting property is
`SLAB_SIZE` on a state satisfying the invariant. -/
theorem spec_accounting_eq {E : Env} (hw : E.well_formed) {y : Sys} (hi : Inv E y) :
    E.slab_offset - 1 + spec_accounting E y.st = SLAB_SIZE := by
  have hsz := size_ge_two hw
  by_cases hl : y.st.meta.link = 1
  · obtain ⟨hh, h⟩ := hi.full hl
    have hc : free_chain E y.st.mem SLAB_SIZE 1 = (0, 1) := by
      simp [free_chain, SLAB_SIZE]
    simp only [spec_accounting, hh, hc, Metaslab.is_full, hl]
    simp
    omega
  · obtain ⟨fl, t, hs⟩ := hi.space hl
    have htot := hs.total
    have hlen : fl.length ≤ SLAB_SIZE := by
      have : fl.length * 1 ≤ fl.length * E.size := Nat.mul_le_mul_left _ (by omega)
      omega
    have hc := free_chain_eq hw y.st.mem fl SLAB_SIZE y.st.meta.head t hs.chain hs.t_odd
      hs.fl_slot hlen
    have hto := hs.t_odd
    simp only [spec_accounting, hc, Metaslab.is_full, hto]
    by_cases ht : t = 1
    · simp [ht, hl] at htot ⊢
      omega
    · simp [ht, hl] at htot ⊢
      omega

theorem capacity_le {E : Env} (hw : E.well_formed) : E.capacity * E.size = SLAB_SIZE - (E.slab_offset - 1) := by
  obtain ⟨_, _, _, _, h5⟩ := hw
  unfold Env.capacity
  exact Nat.div_mul_cancel (Nat.dvd_of_mod_eq_zero h5)

/-- Full means `used == capacity`, except after the return of a slab of one object. -/
theorem full_iff_capacity {E : Env} (hw : E.well_formed) {y : Sys} (hg : Good E y)
    (hr : y.returned = false ∨ 2 ≤ E.capacity) :
    y.st.meta.is_full = true ↔ y.st.meta.used = E.capacity := by
  have hcap := capacity_le hw
  have hsz := size_ge_two hw
  have hpos : 0 < E.size := by omega
  have h4 := hw.2.2.2.1
  simp only [Metaslab.is_full, beq_iff_eq]
  cases hret : y.returned with
  | false =>
    have hi := hg.1 hret
    constructor
    · intro hl
      obtain ⟨-, h⟩ := hi.full hl
      have : y.st.meta.used * E.size = E.capacity * E.size := by omega
      exact Nat.eq_of_mul_eq_mul_right hpos this
    · intro hu
      by_contra hl
      obtain ⟨fl, t, hs⟩ := hi.space hl
      have htot := hs.total
      rw [hu] at htot
      omega
  | true =>
    obtain ⟨h0, h1⟩ := hg.2 hret
    have h2 : 2 ≤ E.capacity := by
      rcases hr with h | h
      · rw [hret] at h; exact absurd h (by simp)
      · exact h
    have h2s := Nat.mul_le_mul_right E.size h2
    constructor
    · intro hl
      have := h1 hl
      omega
    · intro hu
      omega

theorem capacity_lt {E : Env} (hw : E.well_formed) : E.capacity < 65536 := by
  have h := capacity_le hw
  have hsz := size_ge_two hw
  by_contra hc
  have := Nat.mul_le_mul (Nat.le_of_not_lt hc) hsz
  unfold SLAB_SIZE at h
  omega

theorem reclaim_call_is_reclaim (E : Env) : (reclaim_call E).is_reclaim = true := by
  unfold reclaim_call
  split <;> rfl

theorem reclaim_call_not_list_op (E : Env) : (reclaim_call E).is_list_op = false := by
  unfold reclaim_call
  split <;> rfl

theorem reclaim_call_not_remove (E : Env) : (reclaim_call E).is_remove = false := by
  unfold reclaim_call
  split <;> rfl

/-- Deallocs that leave at least one block used make no call at all. -/
theorem dealloc_run_prefix (E : Env) : ∀ (ps : List Nat) (s : SlabState), s.meta.link ≠ 1 →
    s.meta.used = ps.length + 1 → s.meta.used < 65536 →
    (dealloc_run E s ps).2 = [] ∧ (dealloc_run E s ps).1.meta.used = 1 ∧
    (dealloc_run E s ps).1.meta.link = s.meta.link
  | [], s, _, hu, _ => by simpa [dealloc_run] using hu
  | p :: rest, s, hl, hu, hlt => by
    simp only [List.length_cons] at hu
    have h1 : dec16 s.meta.used = rest.length + 1 := by unfold dec16; omega
    have hd := dealloc_ordinary E p s hl (by rw [h1]; omega)
    have ih := dealloc_run_prefix E rest (dealloc E p s).2.1 (by rw [hd]; exact hl)
      (by rw [hd]; exact h1) (by rw [hd]; show dec16 s.meta.used < 65536; omega)
    simp only [dealloc_run]
    refine ⟨?_, ih.2.1, ?_⟩
    · rw [ih.1, hd]; rfl
    · rw [ih.2.2, hd]

theorem dealloc_run_append (E : Env) : ∀ (ps qs : List Nat) (s : SlabState),
    dealloc_run E s (ps ++ qs) = ((dealloc_run E (dealloc_run E s ps).1 qs).1,
      (dealloc_run E s ps).2 ++ (dealloc_run E (dealloc_run E s ps).1 qs).2)
  | [], qs, s => by simp [dealloc_run]
  | p :: ps, qs, s => by
    rw [List.cons_append]
    simp only [dealloc_run]
    rw [dealloc_run_append E ps qs]
    simp

/-- Draining a slab that is not Full: one `remove` and one reclaim, both in the
last `dealloc`. -/
theorem dealloc_run_drain (E : Env) (ps : List Nat) (q : Nat) (s : SlabState)
    (hl : s.meta.link ≠ 1) (hu : s.meta.used = ps.length + 1) (hlt : s.meta.used < 65536) :
    (dealloc_run E s (ps ++ [q])).1.meta.used = 0 ∧
    (dealloc_run E s (ps ++ [q])).2 =
      [Call.remove E.sizeclass (E.slab + s.meta.link), reclaim_call E] ∧
    (dealloc_run E s ps).2 = [] ∧
    (dealloc E q (dealloc_run E s ps).1).1 = Action.returned_by (reclaim_call E) := by
  obtain ⟨h1, h2, h3⟩ := dealloc_run_prefix E ps s hl hu hlt
  have hlast := dealloc_last E q (dealloc_run E s ps).1 (by rw [h3]; exact hl)
    (by rw [h2]; rfl)
  rw [dealloc_run_append]
  simp only [dealloc_run, hlast, h1, h3]
  simp

/-- Bump allocations in the layout of section 8, in closed form. -/
theorem env64_bump_run (slab : Nat) (mem : Memory) :
    ∀ (n j : Nat), j + n ≤ 1022 →
      alloc_run (env64 slab) n { meta := Metaslab.mk j ((129 + 64 * j) % 65536) 64, mem := mem } =
        ({ meta := Metaslab.mk (j + n) ((129 + 64 * (j + n)) % 65536) 64, mem := mem },
          (List.range' j n).map (fun i => slab + 128 + 64 * i))
  | 0, j, h => by simp [alloc_run]
  | n + 1, j, h => by
    have hj : (129 + 64 * j) % 65536 = 129 + 64 * j := by omega
    rw [hj]
    have hb := alloc_bump (env64 slab) false 64
      { meta := Metaslab.mk j (129 + 64 * j) 64, mem := mem } (by show (129 + 64 * j) % 2 = 1; omega)
      (by show 129 + 64 * j ≠ 1; omega)
    have hm := alloc_mem (env64 slab) false 64 { meta := Metaslab.mk j (129 + 64 * j) 64, mem := mem }
    have hu : uint16_t (j + 1) = j + 1 := by unfold uint16_t; omega
    have hst : (alloc (env64 slab) false 64
        { meta := Metaslab.mk j (129 + 64 * j) 64, mem := mem }).2.1 =
        { meta := Metaslab.mk (j + 1) ((129 + 64 * (j + 1)) % 65536) 64, mem := mem } := by
      have e : (129 + 64 * j + 64) % SLAB_SIZE = (129 + 64 * (j + 1)) % 65536 := by
        unfold SLAB_SIZE; omega
      rcases hs : (alloc (env64 slab) false 64
        { meta := Metaslab.mk j (129 + 64 * j) 64, mem := mem }).2.1 with ⟨m, mm⟩
      rw [hs] at hb hm
      simp only [Bool.false_eq_true, if_false] at hm
      simp only [hu, e] at hb
      rw [hb.2.1, hm]
    have hp : (alloc (env64 slab) false 64
        { meta := Metaslab.mk j (129 + 64 * j) 64, mem := mem }).1 = slab + 128 + 64 * j := by
      rw [hb.1]
      show slab + (129 + 64 * j - 1) = slab + 128 + 64 * j
      omega
    have ih := env64_bump_run slab mem n (j + 1) (by omega)
    have hsz : (env64 slab).size = 64 := rfl
    simp only [alloc_run, hsz, hst, hp, ih]
    have e2 : j + 1 + n = j + (n + 1) := by omega
    simp [List.range', e2]

theorem alloc_run_succ (E : Env) : ∀ (n : Nat) (s : SlabState),
    alloc_run E (n + 1) s =
      ((alloc E false E.size (alloc_run E n s).1).2.1,
        (alloc_run E n s).2 ++ [(alloc E false E.size (alloc_run E n s).1).1])
  | 0, s => by simp [alloc_run]
  | n + 1, s => by
    have ih := alloc_run_succ E n (alloc E false E.size s).2.1
    have e1 : alloc_run E (n + 1 + 1) s =
        ((alloc_run E (n + 1) (alloc E false E.size s).2.1).1,
          (alloc E false E.size s).1 :: (alloc_run E (n + 1) (alloc E false E.size s).2.1).2) := rfl
    have e2 : alloc_run E (n + 1) s =
        ((alloc_run E n (alloc E false E.size s).2.1).1,
          (alloc E false E.size s).1 :: (alloc_run E n (alloc E false E.size s).2.1).2) := rfl
    rw [e1, ih, e2]
    simp

theorem dealloc_run_all (E : Env) (qs : List Nat) (s : SlabState) (hl : s.meta.link ≠ 1)
    (hu : s.meta.used = qs.length) (hpos : 0 < qs.length) (hlt : s.meta.used < 65536) :
    (dealloc_run E s qs).1.meta.used = 0 ∧
    ((dealloc_run E s qs).2.filter Call.is_reclaim).length = 1 ∧
    (dealloc_run E s qs.dropLast).2.filter Call.is_reclaim = [] := by
  have hne : qs ≠ [] := by intro h; rw [h] at hpos; simp at hpos
  have hq := List.dropLast_append_getLast hne
  have hlen : s.meta.used = qs.dropLast.length + 1 := by
    rw [hu, List.length_dropLast]; omega
  obtain ⟨h1, h2, h3, -⟩ := dealloc_run_drain E qs.dropLast (qs.getLast hne) s hl hlen hlt
  rw [hq] at h1 h2
  have e1 : (Call.remove E.sizeclass (E.slab + s.meta.link)).is_reclaim = false := rfl
  refine ⟨h1, ?_, by rw [h3]; rfl⟩
  rw [h2]
  simp [List.filter, e1, reclaim_call_is_reclaim E]

theorem scenario_run_eq (slab : Nat) (mem : Memory) (k : Nat) (hk : k ≤ 1022) :
    alloc_run (env64 slab) k (scenario_start slab mem) =
      ({ meta := Metaslab.mk k ((129 + 64 * k) % 65536) 64, mem := mem },
        (List.range' 0 k).map (fun i => slab + 128 + 64 * i)) := by
  have hstart : scenario_start slab mem =
      { meta := Metaslab.mk 0 ((129 + 64 * 0) % 65536) 64, mem := mem } := rfl
  rw [hstart, env64_bump_run slab mem k 0 (by omega)]
  simp

/-- The scenario after 1023 allocations, in closed form. -/
theorem scenario_full_eq (slab : Nat) (mem : Memory) :
    scenario_full slab mem =
      ({ meta := Metaslab.mk 1023 1 1, mem := mem },
        (List.range' 0 1022).map (fun i => slab + 128 + 64 * i) ++ [slab + 64]) := by
  unfold scenario_full
  rw [alloc_run_succ, scenario_run_eq slab mem 1022 (le_refl _)]
  have hx := alloc_exhausted (env64 slab) false 64
    { meta := Metaslab.mk 1022 ((129 + 64 * 1022) % 65536) 64, mem := mem } rfl
  have hm := alloc_mem (env64 slab) false 64
    { meta := Metaslab.mk 1022 ((129 + 64 * 1022) % 65536) 64, mem := mem }
  have hsz : (env64 slab).size = 64 := rfl
  rw [hsz]
  rcases hs : (alloc (env64 slab) false 64
    { meta := Metaslab.mk 1022 ((129 + 64 * 1022) % 65536) 64, mem := mem }) with ⟨p, ⟨m, mm⟩, c⟩
  rw [hs] at hx hm
  simp only [Bool.false_eq_true, if_false] at hm
  have hp : p = slab + 64 := hx.1
  have hmeta : m = Metaslab.mk 1023 1 1 := hx.2.1
  have hmm : mm = mem := hm
  simp [hp, hmeta, hmm]

/-! ## Lemmas for the debug invariant, masking and round trips -/

/-- The pointer and the `Metaslab` of `alloc` do not depend on zeroing. -/
theorem alloc_zero_same (E : Env) (rsize : Nat) (s : SlabState) :
    (alloc E true rsize s).1 = (alloc E false rsize s).1 ∧
    (alloc E true rsize s).2.1.meta = (alloc E false rsize s).2.1.meta ∧
    (alloc E true rsize s).2.2 = (alloc E false rsize s).2.2 ++
      [Call.zero (decide (¬ rsize < E.PAGE_ALIGNED_SIZE)) (alloc E false rsize s).1 rsize] := by
  unfold alloc
  simp

/-- Without zeroing, `alloc` makes no call, or the one call `pop`. -/
theorem alloc_calls_no_zero (E : Env) (rsize : Nat) (s : SlabState) :
    (alloc E false rsize s).2.2 = [] ∨ (alloc E false rsize s).2.2 = [Call.pop] := by
  unfold alloc
  simp only [Bool.false_eq_true, if_false]
  split_ifs <;> simp

/-- Divisibility of a difference is congruence. -/
theorem sub_mod_eq_zero_iff (a b n : Nat) (h : b ≤ a) : (a - b) % n = 0 ↔ a % n = b % n := by
  have := Nat.modEq_iff_dvd' (n := n) h
  unfold Nat.ModEq at this
  rw [← Nat.dvd_iff_mod_eq_zero]
  constructor
  · intro hd; exact (this.mpr hd).symm
  · intro he; exact this.mp he.symm

/-- Masking an interior address with `SLAB_MASK` yields the slab address. -/
theorem and_slab_mask (s i : Nat) (hs : s % SLAB_SIZE = 0) (hi : i < SLAB_SIZE)
    (hlt : s + i < SIZE_T_RANGE) : (s + i) &&& SLAB_MASK = s := by
  unfold SLAB_SIZE at hs hi
  unfold SIZE_T_RANGE at hlt
  obtain ⟨k, rfl⟩ : ∃ k, s = 2 ^ 16 * k := ⟨s / 65536, by omega⟩
  have hk : k < 2 ^ 48 := by omega
  have hmask : SLAB_MASK = 2 ^ 16 * (2 ^ 48 - 1) := by unfold SLAB_MASK; norm_num
  apply Nat.eq_of_testBit_eq
  intro j
  rw [Nat.testBit_and, hmask, Nat.testBit_mul_pow_two_add k (by omega : i < 2 ^ 16),
    Nat.testBit_mul_pow_two, Nat.testBit_mul_pow_two, Nat.testBit_two_pow_sub_one]
  by_cases hj : j < 16
  · have : ¬ j ≥ 16 := by omega
    simp [hj, this]
  · have hge : j ≥ 16 := by omega
    simp only [hj, if_false, hge, decide_True, Bool.true_and]
    by_cases h48 : j - 16 < 48
    · simp [h48]
    · have : k.testBit (j - 16) = false := by
        cases hb : k.testBit (j - 16) with
        | false => rfl
        | true =>
          have h1 := Nat.testBit_implies_ge hb
          have h2 : 2 ^ 48 ≤ 2 ^ (j - 16) := Nat.pow_le_pow_right (by omega) (by omega)
          omega
      simp [this]

/-- A finished walk has followed a free list whose blocks passed the three
assertions of the loop. -/
theorem debug_walk_inv {E : Env} (link : Nat) (mem : Memory) (hsz : E.size ≤ SLAB_SIZE) :
    ∀ (fuel curr acc t a : Nat), acc ≤ SLAB_SIZE → curr < 65536 →
      debug_walk E link mem fuel curr acc = Walk.done t a →
      ∃ fl, Chain E mem curr fl t ∧ t % 2 = 1 ∧ t < 65536 ∧
        (∀ o ∈ fl, o % 2 = 0 ∧ size_t_sub o E.offset % E.size = 0 ∧ o ≠ link) ∧
        a = acc + fl.length * E.size ∧ a ≤ SLAB_SIZE ∧ fl.length < fuel
  | 0, _, _, _, _, _, _, h => by simp [debug_walk] at h
  | fuel + 1, curr, acc, t, a, hacc, hcurr, h => by
    simp only [debug_walk, Nat.and_one_is_mod] at h
    by_cases hodd : curr % 2 = 1
    · rw [if_pos hodd] at h
      cases h
      exact ⟨[], rfl, hodd, hcurr, by simp, by simp, hacc, by simp⟩
    · rw [if_neg hodd] at h
      have hnw : size_t (acc + E.size) = acc + E.size := by
        unfold size_t SIZE_T_RANGE; unfold SLAB_SIZE at hacc hsz; omega
      rw [hnw] at h
      by_cases hchk : size_t_sub curr E.offset % E.size = 0
      · by_cases hle : SLAB_SIZE ≥ acc + E.size
        · by_cases hlk : curr = link
          · simp [hchk, hle, hlk] at h
          · simp only [hchk, hle, hlk, ne_eq, not_true_eq_false, not_false_eq_true, if_false,
              if_true] at h
            obtain ⟨fl, h1, h2, h3, h4, h5, h6, h7⟩ :=
              debug_walk_inv link mem hsz fuel (load16 mem (E.slab + curr)) (acc + E.size) t a
                hle (load16_lt _ _) h
            refine ⟨curr :: fl, ⟨rfl, h1⟩, h2, h3, ?_, ?_, h6, by simp; omega⟩
            · intro o ho
              rcases List.mem_cons.mp ho with e | e
              · rw [e]; exact ⟨by omega, hchk, hlk⟩
              · exact h4 o e
            · rw [h5, List.length_cons, Nat.add_mul]; omega
        · simp [hchk, hle] at h
      · simp [hchk] at h

/-- A free list whose blocks pass the assertions of the loop is walked to its
end. -/
theorem debug_walk_of_chain {E : Env} (link : Nat) (mem : Memory) :
    ∀ (fl : List Nat) (fuel h t acc : Nat), Chain E mem h fl t → t % 2 = 1 →
      (∀ o ∈ fl, o % 2 = 0 ∧ size_t_sub o E.offset % E.size = 0 ∧ o ≠ link) →
      fl.length < fuel → acc + fl.length * E.size ≤ SLAB_SIZE →
      debug_walk E link mem fuel h acc = Walk.done t (acc + fl.length * E.size)
  | [], fuel, h, t, acc, hc, ht, _, hf, _ => by
    have hh : h = t := hc
    obtain ⟨f, rfl⟩ : ∃ f, fuel = f + 1 := ⟨fuel - 1, by simp at hf; omega⟩
    simp [debug_walk, hh, ht]
  | o :: rest, fuel, h, t, acc, hc, ht, hs, hf, ha => by
    obtain ⟨hh, hc2⟩ := hc
    obtain ⟨f, rfl⟩ : ∃ f, fuel = f + 1 := ⟨fuel - 1, by simp at hf; omega⟩
    obtain ⟨hev, hchk, hne⟩ := hs o (List.mem_cons_self _ _)
    simp only [List.length_cons, Nat.add_mul, Nat.one_mul] at ha
    have hacc : size_t (acc + E.size) = acc + E.size := by
      unfold size_t SIZE_T_RANGE; unfold SLAB_SIZE at ha; omega
    have hle : SLAB_SIZE ≥ acc + E.size := by omega
    have ih := debug_walk_of_chain link mem rest f (load16 mem (E.slab + o)) t (acc + E.size)
      hc2 ht (fun a h => hs a (List.mem_cons_of_mem _ h)) (by simp at hf; omega) (by omega)
    rw [hh]
    simp only [debug_walk, Nat.and_one_is_mod, hev, hchk, hacc, hne, hle]
    simp only [List.length_cons, Nat.add_mul, Nat.one_mul]
    rw [ih]
    simp
    omega

/-- A passing `debug_slab_invariant` on a slab that is not Full yields the
facts its assertions state. -/
theorem checked_of_debug {E : Env} (hw : E.well_formed) {s : SlabState} (hr : s.meta.in_range)
    {a : Nat} (hd : debug_slab_invariant E s = Verdict.ok a) (hl : s.meta.link ≠ 1) :
    ∃ fl t, Checked E s fl t ∧ t < 65536 := by
  have hoff := offset_eq hw
  obtain ⟨h1, h2, h3, h4, h5⟩ := hw
  obtain ⟨hu, hh, hk⟩ := hr
  have hsz : E.size ≤ SLAB_SIZE := by omega
  unfold SLAB_SIZE at h4 hsz
  have hmul : s.meta.used * E.size ≤ 65535 * 65536 :=
    Nat.mul_le_mul (by omega) hsz
  have hacc0 : size_t (s.meta.used * E.size + E.offset) = s.meta.used * E.size + E.offset := by
    unfold size_t SIZE_T_RANGE; omega
  simp only [debug_slab_invariant, Metaslab.is_full, hacc0] at hd
  have hlb : (s.meta.link == 1) = false := by simpa using hl
  simp only [hlb, Bool.false_eq_true, if_false] at hd
  by_cases hlt : SLAB_SIZE > s.meta.used * E.size + E.offset
  · simp only [hlt, not_true_eq_false, if_false] at hd
    cases hwk : debug_walk E s.meta.link s.mem (SLAB_SIZE + 2) s.meta.head
        (s.meta.used * E.size + E.offset) with
    | out_of_fuel => rw [hwk] at hd; simp at hd
    | assert_failed => rw [hwk] at hd; simp at hd
    | done t a1 =>
      rw [hwk] at hd
      obtain ⟨fl, c1, c2, c3, c4, c5, c6, -⟩ :=
        debug_walk_inv s.meta.link s.mem (by unfold SLAB_SIZE; omega) _ _ _ _ _
          (Nat.le_of_lt hlt) hh hwk
      refine ⟨fl, t, ⟨c1, c2, c4, ?_, hl, ?_⟩, c3⟩
      · intro ht
        simp only [ht, ne_eq, not_false_eq_true, if_true] at hd
        by_cases hb1 : size_t_sub (t / 2 * 2) E.offset % E.size = 0
        · by_cases hb2 : (s.meta.link : Int) = (E.slab_offset : Int) - 1
          · exact ⟨hb1, hb2⟩
          · simp [hb1, hb2] at hd
        · simp [hb1] at hd
      · unfold SLAB_SIZE at c6 ⊢
        by_cases ht : t = 1
        · simp only [ht, ne_eq, not_true_eq_false, if_false, hl] at hd
          have e : size_t (a1 + E.size) = a1 + E.size := by
            unfold size_t SIZE_T_RANGE; omega
          rw [e] at hd
          simp only [if_true, ht]
          by_cases hfin : SLAB_SIZE = a1 + E.size
          · unfold SLAB_SIZE at hfin; omega
          · simp [hfin] at hd
        · simp only [ht, ne_eq, not_false_eq_true, if_true] at hd
          by_cases hb1 : size_t_sub (t / 2 * 2) E.offset % E.size = 0
          · by_cases hb2 : (s.meta.link : Int) = (E.slab_offset : Int) - 1
            · have e1 : size_t (a1 + (SLAB_SIZE - (t - 1))) = a1 + (SLAB_SIZE - (t - 1)) := by
                unfold size_t SIZE_T_RANGE SLAB_SIZE; omega
              have e : size_t (a1 + (SLAB_SIZE - (t - 1)) + E.size)
                  = a1 + (SLAB_SIZE - (t - 1)) + E.size := by
                unfold size_t SIZE_T_RANGE SLAB_SIZE; omega
              simp only [hb1, hb2, not_true_eq_false, if_false, hl, e1, e] at hd
              simp only [ht, if_false]
              by_cases hfin : SLAB_SIZE = a1 + (SLAB_SIZE - (t - 1)) + E.size
              · unfold SLAB_SIZE at hfin; omega
              · simp [hfin] at hd
            · simp [hb1, hb2] at hd
          · simp [hb1] at hd
  · simp [hlt] at hd

/-- The facts the assertions state make `debug_slab_invariant` pass. -/
theorem debug_of_checked {E : Env} (hpos : 0 < E.size) {s : SlabState} (fl : List Nat) (t : Nat)
    (hc : Checked E s fl t) : debug_slab_invariant E s = Verdict.ok SLAB_SIZE := by
  have htot := hc.total
  have hl := hc.not_full
  have hto := hc.t_odd
  have hlen : fl.length < SLAB_SIZE + 2 := by
    have : fl.length * 1 ≤ fl.length * E.size := Nat.mul_le_mul_left _ (by omega)
    omega
  have hacc0 : size_t (s.meta.used * E.size + E.offset) = s.meta.used * E.size + E.offset := by
    unfold size_t SIZE_T_RANGE; unfold SLAB_SIZE at htot; omega
  have hwalk := debug_walk_of_chain s.meta.link s.mem fl (SLAB_SIZE + 2) s.meta.head t
    (s.meta.used * E.size + E.offset) hc.chain hto hc.entries hlen (by omega)
  have hlt : s.meta.used * E.size + E.offset < SLAB_SIZE := by omega
  by_cases ht : t = 1
  · simp only [ht, if_true, Nat.add_zero] at htot
    have hfin : size_t (s.meta.used * E.size + E.offset + fl.length * E.size + E.size)
        = SLAB_SIZE := by
      rw [htot]; rfl
    simp [debug_slab_invariant, Metaslab.is_full, hl, hacc0, hlt, hwalk, ht, hfin]
  · simp only [ht, if_false] at htot
    obtain ⟨b1, b2⟩ := hc.bump ht
    have hbump : size_t (s.meta.used * E.size + E.offset + fl.length * E.size
        + (SLAB_SIZE - (t - 1))) = s.meta.used * E.size + E.offset
        + fl.length * E.size + (SLAB_SIZE - (t - 1)) := by
      unfold size_t SIZE_T_RANGE; unfold SLAB_SIZE at htot ⊢; omega
    have hfin : size_t (s.meta.used * E.size + E.offset + fl.length * E.size
        + (SLAB_SIZE - (t - 1)) + E.size) = SLAB_SIZE := by
      rw [htot]; rfl
    simp [debug_slab_invariant, Metaslab.is_full, hl, hacc0, hlt, hwalk, ht, b1, b2, hbump, hfin]

/-- On a Full slab `debug_slab_invariant` passes exactly when the used blocks
and the bytes in front of the payload make up the slab. -/
theorem debug_full_iff {E : Env} {s : SlabState} (hl : s.meta.link = 1) (a : Nat) :
    debug_slab_invariant E s = Verdict.ok a ↔
      (SLAB_SIZE = size_t (s.meta.used * E.size + E.offset) ∧ a = SLAB_SIZE) := by
  simp only [debug_slab_invariant, Metaslab.is_full, hl, beq_self_eq_true, if_true]
  by_cases h : SLAB_SIZE = size_t (s.meta.used * E.size + E.offset)
  · rw [if_pos h]
    constructor
    · intro e; cases e; exact ⟨h, h.symm⟩
    · rintro ⟨-, rfl⟩; rw [← h]
  · rw [if_neg h]
    constructor
    · intro e; cases e
    · rintro ⟨e, -⟩; exact absurd e h

/-- The blocks the walk visits are the blocks of the free list. -/
theorem chain_blocks_eq (E : Env) (mem : Memory) :
    ∀ (fl : List Nat) (fuel h t : Nat), Chain E mem h fl t → t % 2 = 1 →
      (∀ o ∈ fl, o % 2 = 0) → fl.length ≤ fuel → chain_blocks E mem fuel h = fl
  | [], fuel, h, t, hc, ht, _, _ => by
    have hh : h = t := hc
    cases fuel with
    | zero => simp [chain_blocks]
    | succ f => simp [chain_blocks, hh, ht]
  | o :: rest, fuel, h, t, hc, ht, hs, hf => by
    obtain ⟨hh, hc2⟩ := hc
    obtain ⟨f, rfl⟩ : ∃ f, fuel = f + 1 := ⟨fuel - 1, by simp at hf; omega⟩
    have hev := hs o (List.mem_cons_self _ _)
    have ih := chain_blocks_eq E mem rest f (load16 mem (E.slab + o)) t hc2 ht
      (fun a h => hs a (List.mem_cons_of_mem _ h)) (by simp at hf; omega)
    rw [hh]
    simp [chain_blocks, hev, ih]

/-- The free list of a checked state is no longer than the slab. -/
theorem Checked.length_le {E : Env} (hpos : 0 < E.size) {s : SlabState} {fl : List Nat} {t : Nat}
    (hc : Checked E s fl t) : fl.length < SLAB_SIZE := by
  have htot := hc.total
  have : fl.length * 1 ≤ fl.length * E.size := Nat.mul_le_mul_left _ (by omega)
  omega

/-- A state is checked when its two components are. -/
theorem checked_mk {E : Env} {s : SlabState} {m : Metaslab} {mem : Memory} (hm : s.meta = m)
    (hmem : s.mem = mem) {fl : List Nat} {t : Nat}
    (hc : Checked E { meta := m, mem := mem } fl t) : Checked E s fl t := by
  cases s
  simp only at hm hmem
  subst hm hmem
  exact hc

/-- A `head` at a slot passes `valid_head`. -/
theorem valid_head_of_slot {E : Env} (hw : E.well_formed) {o : Nat} (h : Slot E o)
    (used link : Nat) : (Metaslab.mk used o link).valid_head E = true := by
  have hev := h.even hw
  have hchk := slot_check hw h
  rw [offset_eq hw] at hchk
  obtain ⟨_, _, h3, h4, _⟩ := hw
  unfold SLAB_SIZE at h4
  have e1 : size_t E.slab_offset = E.slab_offset := by unfold size_t SIZE_T_RANGE; omega
  have e2 : E.slab_offset / 2 * 2 = E.slab_offset - 1 := by omega
  have e3 : o / 2 * 2 = o := by omega
  simp [Metaslab.valid_head, e1, e2, e3, hchk]

/-- The block `alloc` returns on a state satisfying the invariant: not handed
out, and a slot of the slab. -/
theorem alloc_fresh_slot {E : Env} (hw : E.well_formed) (hpg : E.whole_pages) {y : Sys}
    (hi : Inv E y) (hl : y.st.meta.link ≠ 1) (z : Bool) :
    (alloc E z E.size y.st).1 ∉ y.live ∧
    ∃ o, (alloc E z E.size y.st).1 = E.slab + o ∧ Slot E o := by
  have h := inv_alloc hw hpg hi hl z
  have hnd := h.live_nodup
  have hs := h.live_slot (alloc E z E.size y.st).1 (List.mem_cons_self _ _)
  exact ⟨(List.nodup_cons.mp hnd).1, hs⟩

/-- The distance from a slot to the end of the slab is a multiple of the
object size. -/
theorem slot_start_of_object {E : Env} (hw : E.well_formed) {o : Nat} (h : Slot E o) :
    is_start_of_object E (E.slab + o) = true := by
  have hcap := capacity_le hw
  obtain ⟨k, hk, hfit⟩ := h
  have e : size_t_sub (E.slab + SLAB_SIZE) (E.slab + o) = SLAB_SIZE - o := by
    unfold size_t_sub; unfold SLAB_SIZE at hfit ⊢; omega
  have e2 : SLAB_SIZE - o = (E.capacity - k) * E.size := by
    rw [Nat.sub_mul, hcap]; omega
  simp [is_start_of_object, is_multiple_of_sizeclass, e, e2]

/-- The fresh slab has the memory-independent properties of a run. -/
theorem weak_fresh {E : Env} (hw : E.well_formed) (mem : Memory) : Weak E (fresh E mem) := by
  obtain ⟨_, _, hodd, _, _⟩ := hw
  have hlink : (fresh E mem).st.meta.link = (E.slab_offset - 1) % 65536 := by
    show mod_slab (E.slab_offset - 1) = _
    unfold mod_slab uint16_t SLAB_SIZE
    omega
  have hhead : (fresh E mem).st.meta.head = (E.slab_offset + E.size) % 65536 := by
    show mod_slab (E.slab_offset + E.size) = _
    unfold mod_slab uint16_t SLAB_SIZE
    omega
  refine ⟨fun p hp => absurd hp (by simp [fresh]), ?_, ?_, ?_⟩
  · rw [hhead]; omega
  · intro h; rw [hlink] at h; omega
  · intro _; rw [hlink]; omega

/-- Every valid step keeps the memory-independent properties of a run. -/
theorem weak_step {E : Env} {y y1 : Sys} (hk : Weak E y) (op : Op)
    (h : step E y op = some y1) : Weak E y1 := by
  cases op with
  | alloc z =>
    simp only [step] at h
    split at h
    · exact absurd h (by simp)
    · rename_i hc
      simp only [Bool.or_eq_true, not_or, Bool.not_eq_true, Metaslab.is_full,
        beq_eq_false_iff_ne] at hc
      cases Option.some.inj h
      obtain ⟨hle, hll⟩ := hk.link_even hc.2
      have hhl := hk.head_lt
      by_cases hev : y.st.meta.head % 2 = 0
      · obtain ⟨e1, e2, -⟩ := alloc_free_list E z E.size y.st hev
        refine ⟨?_, ?_, ?_, ?_⟩
        · intro p hp
          rcases List.mem_cons.mp hp with e | e
          · exact ⟨y.st.meta.head, by rw [e, e1], hev, hhl⟩
          · exact hk.live_even p e
        · show (alloc E z E.size y.st).2.1.meta.head < 65536
          rw [e2]; exact load16_lt _ _
        · intro hc2
          have : (alloc E z E.size y.st).2.1.meta.link = 1 := hc2
          rw [e2] at this
          exact absurd this hc.2
        · intro _
          show (alloc E z E.size y.st).2.1.meta.link % 2 = 0 ∧
            (alloc E z E.size y.st).2.1.meta.link < 65536
          rw [e2]; exact ⟨hle, hll⟩
      · by_cases h1 : y.st.meta.head = 1
        · obtain ⟨e1, e2, -⟩ := alloc_exhausted E z E.size y.st h1
          refine ⟨?_, ?_, ?_, ?_⟩
          · intro p hp
            rcases List.mem_cons.mp hp with e | e
            · exact ⟨y.st.meta.link, by rw [e, e1], hle, hll⟩
            · exact hk.live_even p e
          · show (alloc E z E.size y.st).2.1.meta.head < 65536
            rw [e2]; show 1 < 65536; omega
          · intro _
            show (alloc E z E.size y.st).2.1.meta.head = 1
            rw [e2]
          · intro hc2
            exfalso
            apply hc2
            show (alloc E z E.size y.st).2.1.meta.link = 1
            rw [e2]
        · obtain ⟨e1, e2, -⟩ := alloc_bump E z E.size y.st (by omega) h1
          refine ⟨?_, ?_, ?_, ?_⟩
          · intro p hp
            rcases List.mem_cons.mp hp with e | e
            · exact ⟨y.st.meta.head - 1, by rw [e, e1], by omega, by omega⟩
            · exact hk.live_even p e
          · show (alloc E z E.size y.st).2.1.meta.head < 65536
            rw [e2]
            show (y.st.meta.head + E.size) % SLAB_SIZE < 65536
            unfold SLAB_SIZE; omega
          · intro hc2
            have : (alloc E z E.size y.st).2.1.meta.link = 1 := hc2
            rw [e2] at this
            exact absurd this hc.2
          · intro _
            show (alloc E z E.size y.st).2.1.meta.link % 2 = 0 ∧
              (alloc E z E.size y.st).2.1.meta.link < 65536
            rw [e2]; exact ⟨hle, hll⟩
  | dealloc p =>
    simp only [step] at h
    split at h
    · exact absurd h (by simp)
    · rename_i hc
      simp only [Bool.or_eq_true, not_or, Bool.not_eq_true, Bool.not_eq_true',
        List.elem_eq_mem, decide_eq_false_iff_not, not_not] at hc
      cases Option.some.inj h
      have hp : p ∈ y.live := by simpa using hc.2
      obtain ⟨o, rfl, hoe, hol⟩ := hk.live_even p hp
      have hidx := pointer_to_index_add E o hol
      have hlive : ∀ q ∈ y.live.erase (E.slab + o), ∃ o1, q = E.slab + o1 ∧ o1 % 2 = 0 ∧
          o1 < 65536 := fun q hq => hk.live_even q (List.mem_of_mem_erase hq)
      by_cases hl : y.st.meta.link = 1
      · have hh := hk.full_head hl
        by_cases h1 : dec16 y.st.meta.used = 0
        · refine ⟨hlive, ?_, ?_, ?_⟩
          · show (dealloc E (E.slab + o) y.st).2.1.meta.head < 65536
            rw [dealloc_full_last E _ y.st hl h1]; exact hk.head_lt
          · intro _
            show (dealloc E (E.slab + o) y.st).2.1.meta.head = 1
            rw [dealloc_full_last E _ y.st hl h1]; exact hh
          · intro hc2
            exfalso
            apply hc2
            show (dealloc E (E.slab + o) y.st).2.1.meta.link = 1
            rw [dealloc_full_last E _ y.st hl h1]
        · refine ⟨hlive, ?_, ?_, ?_⟩
          · show (dealloc E (E.slab + o) y.st).2.1.meta.head < 65536
            rw [dealloc_from_full E _ y.st hl h1]; exact hk.head_lt
          · intro _
            show (dealloc E (E.slab + o) y.st).2.1.meta.head = 1
            rw [dealloc_from_full E _ y.st hl h1]; exact hh
          · intro _
            show (dealloc E (E.slab + o) y.st).2.1.meta.link % 2 = 0 ∧
              (dealloc E (E.slab + o) y.st).2.1.meta.link < 65536
            rw [dealloc_from_full E _ y.st hl h1, hidx]; exact ⟨hoe, hol⟩
      · obtain ⟨hle, hll⟩ := hk.link_even hl
        by_cases h1 : dec16 y.st.meta.used = 0
        · refine ⟨hlive, ?_, ?_, ?_⟩
          · show (dealloc E (E.slab + o) y.st).2.1.meta.head < 65536
            rw [dealloc_last E _ y.st hl h1]; exact hk.head_lt
          · intro hc2
            have : (dealloc E (E.slab + o) y.st).2.1.meta.link = 1 := hc2
            rw [dealloc_last E _ y.st hl h1] at this
            exact absurd this hl
          · intro _
            show (dealloc E (E.slab + o) y.st).2.1.meta.link % 2 = 0 ∧
              (dealloc E (E.slab + o) y.st).2.1.meta.link < 65536
            rw [dealloc_last E _ y.st hl h1]; exact ⟨hle, hll⟩
        · refine ⟨hlive, ?_, ?_, ?_⟩
          · show (dealloc E (E.slab + o) y.st).2.1.meta.head < 65536
            rw [dealloc_ordinary E _ y.st hl h1, hidx]; exact hol
          · intro hc2
            have : (dealloc E (E.slab + o) y.st).2.1.meta.link = 1 := hc2
            rw [dealloc_ordinary E _ y.st hl h1] at this
            exact absurd this hl
          · intro _
            show (dealloc E (E.slab + o) y.st).2.1.meta.link % 2 = 0 ∧
              (dealloc E (E.slab + o) y.st).2.1.meta.link < 65536
            rw [dealloc_ordinary E _ y.st hl h1]; exact ⟨hle, hll⟩
  | store a v =>
    simp only [step] at h
    split at h
    · exact absurd h (by simp)
    · cases Option.some.inj h
      exact ⟨hk.live_even, hk.head_lt, hk.full_head, hk.link_even⟩

/-- Every valid run keeps the memory-independent properties of a run. -/
theorem weak_run {E : Env} :
    ∀ (ops : List Op) (y y1 : Sys), Weak E y → run E y ops = some y1 → Weak E y1
  | [], y, y1, hk, h => by
    simp only [run] at h
    cases Option.some.inj h
    exact hk
  | op :: ops, y, y1, hk, h => by
    simp only [run] at h
    cases hs : step E y op with
    | none => rw [hs] at h; simp at h
    | some y2 =>
      rw [hs] at h
      exact weak_run ops y2 y1 (weak_step hk op hs) h

/-- One `dealloc` of a block handed out, on a slab with at least two blocks in
use: the slab is not returned, memory changes inside the block only, and an
`alloc` on any state with the resulting `Metaslab` and the same first two
bytes of the block returns the block and restores the `Metaslab`. -/
theorem dealloc_alloc_step {E : Env} (hw : E.well_formed) {y : Sys} (hi : Inv E y) {p : Nat}
    (hp : p ∈ y.live) (hu : 2 ≤ y.st.meta.used) :
    (dealloc E p y.st).1 = Action.NoSlabReturn ∧
    (dealloc E p y.st).2.2.filter Call.is_reclaim = [] ∧
    (dealloc E p y.st).2.1.meta.used = y.st.meta.used - 1 ∧
    (∀ a, (a < p ∨ p + E.size ≤ a) → (dealloc E p y.st).2.1.mem a = y.st.mem a) ∧
    ∀ (z : Bool) (s1 : SlabState), s1.meta = (dealloc E p y.st).2.1.meta →
      s1.mem p = (dealloc E p y.st).2.1.mem p →
      s1.mem (p + 1) = (dealloc E p y.st).2.1.mem (p + 1) →
      (alloc E z E.size s1).1 = p ∧ (alloc E z E.size s1).2.1.meta = y.st.meta := by
  obtain ⟨o, rfl, hso⟩ := hi.live_slot p hp
  have hsz := size_ge_two hw
  have hult := hi.used_lt hw
  have hidx := pointer_to_index_add E o (hso.lt hw)
  have hev := hso.even hw
  have hdec : dec16 y.st.meta.used = y.st.meta.used - 1 := by unfold dec16; omega
  have hne : dec16 y.st.meta.used ≠ 0 := by rw [hdec]; omega
  have hinc : uint16_t (y.st.meta.used - 1 + 1) = y.st.meta.used := by
    unfold uint16_t; omega
  by_cases hl : y.st.meta.link = 1
  · obtain ⟨hhead, -⟩ := hi.full hl
    rw [dealloc_from_full E _ y.st hl hne, hidx, hdec]
    refine ⟨rfl, by simp [Call.is_reclaim], rfl, fun _ _ => rfl, ?_⟩
    intro z s1 hm _ _
    have hh1 : s1.meta.head = 1 := by rw [hm]; exact hhead
    obtain ⟨e1, e2, -⟩ := alloc_exhausted E z E.size s1 hh1
    rw [e1, e2, hm]
    refine ⟨rfl, ?_⟩
    show Metaslab.mk (uint16_t (y.st.meta.used - 1 + 1)) 1 1 = y.st.meta
    rw [hinc]
    cases hmeta : y.st.meta with
    | mk u h l =>
      rw [hmeta] at hhead hl
      simp only at hhead hl
      rw [hhead, hl]
  · obtain ⟨fl, t, hs⟩ := hi.space hl
    have hhlt := hs.head_lt hw
    rw [dealloc_ordinary E _ y.st hl hne, hidx, hdec]
    refine ⟨rfl, by simp, rfl, ?_, ?_⟩
    · intro a ha
      show store16 y.st.mem (E.slab + o) y.st.meta.head a = y.st.mem a
      unfold store16
      have h1 : a ≠ E.slab + o := by omega
      have h2 : a ≠ E.slab + o + 1 := by omega
      simp [h1, h2]
    · intro z s1 hm h0 h1
      have hh : s1.meta.head % 2 = 0 := by rw [hm]; exact hev
      obtain ⟨e1, e2, -⟩ := alloc_free_list E z E.size s1 hh
      rw [e1, e2, hm]
      refine ⟨rfl, ?_⟩
      show Metaslab.mk (uint16_t (y.st.meta.used - 1 + 1)) (load16 s1.mem (E.slab + o))
        y.st.meta.link = y.st.meta
      rw [hinc, load16_congr s1.mem _ _ h0 h1]
      show Metaslab.mk y.st.meta.used
        (load16 (store16 y.st.mem (E.slab + o) y.st.meta.head) (E.slab + o)) y.st.meta.link = _
      rw [load16_store16 _ _ _ hhlt]

/-- The last call of a run of `alloc` calls. -/
theorem alloc_seq_concat (E : Env) : ∀ (zs : List Bool) (z : Bool) (s : SlabState),
    alloc_seq E (zs ++ [z]) s =
      ((alloc E z E.size (alloc_seq E zs s).1).2.1,
        (alloc_seq E zs s).2 ++ [(alloc E z E.size (alloc_seq E zs s).1).1])
  | [], z, s => by simp [alloc_seq]
  | z0 :: zs, z, s => by
    rw [List.cons_append]
    simp only [alloc_seq]
    rw [alloc_seq_concat E zs z]
    simp

/-- Blocks freed in order come back in reverse order: after `dealloc` of
distinct blocks handed out, fewer than are in use, as many `alloc` calls
return them last freed first and restore the `Metaslab`; memory outside the
blocks is as before. -/
theorem round_trip {E : Env} (hw : E.well_formed) (hpg : E.whole_pages) :
    ∀ (ps : List Nat) (y : Sys) (zs : List Bool), Inv E y → ps.Nodup →
      (∀ p ∈ ps, p ∈ y.live) → ps.length + 1 ≤ y.st.meta.used → zs.length = ps.length →
      (∀ i p, ps[i]? = some p →
        (dealloc E p (dealloc_run E y.st (ps.take i)).1).1 = Action.NoSlabReturn) ∧
      (dealloc_run E y.st ps).2.filter Call.is_reclaim = [] ∧
      (alloc_seq E zs (dealloc_run E y.st ps).1).2 = ps.reverse ∧
      (alloc_seq E zs (dealloc_run E y.st ps).1).1.meta = y.st.meta ∧
      ∀ a, (∀ p ∈ ps, a < p ∨ p + E.size ≤ a) →
        (alloc_seq E zs (dealloc_run E y.st ps).1).1.mem a = y.st.mem a
  | [], y, zs, _, _, _, _, hz => by
    have : zs = [] := List.length_eq_zero.mp hz
    subst this
    simp [dealloc_run, alloc_seq]
  | p :: rest, y, zs, hi, hnd, hlive, hk, hz => by
    have hsz := size_ge_two hw
    have hp : p ∈ y.live := hlive p (List.mem_cons_self _ _)
    simp only [List.length_cons] at hk hz
    obtain ⟨hact, hcalls, hused, hmem, hback⟩ := dealloc_alloc_step hw hi hp (by omega)
    have hg := good_dealloc hw hi hp
    have hi1 := hg.1 (by simp [hact])
    obtain ⟨hpn, hrn⟩ := List.nodup_cons.mp hnd
    have hzne : zs ≠ [] := by
      intro h; rw [h] at hz; simp at hz
    obtain ⟨zs1, z, rfl⟩ : ∃ zs1 z, zs = zs1 ++ [z] :=
      ⟨zs.dropLast, zs.getLast hzne, (List.dropLast_append_getLast hzne).symm⟩
    have hz1 : zs1.length = rest.length := by simpa using hz
    obtain ⟨ih0, ih1, ih2, ih3, ih4⟩ := round_trip hw hpg rest _ zs1 hi1 hrn
      (fun q hq => (List.mem_erase_of_ne (fun (h : q = p) => hpn (by rw [← h]; exact hq))).mpr
        (hlive q (List.mem_cons_of_mem _ hq)))
      (by show rest.length + 1 ≤ (dealloc E p y.st).2.1.meta.used; rw [hused]; omega) hz1
    obtain ⟨o, ho, hso⟩ := hi.live_slot p hp
    have hout : ∀ a, p ≤ a → a < p + E.size → ∀ q ∈ rest, a < q ∨ q + E.size ≤ a := by
      intro a h1 h2 q hq
      obtain ⟨o1, ho1, hso1⟩ := hi.live_slot q (hlive q (List.mem_cons_of_mem _ hq))
      have hne : o ≠ o1 := by
        intro h; apply hpn; rw [ho, h, ← ho1]; exact hq
      rcases slot_disjoint hso hso1 hne with h | h <;> omega
    obtain ⟨hb1, hb2⟩ := hback z (alloc_seq E zs1 (dealloc_run E (dealloc E p y.st).2.1 rest).1).1
      ih3 (ih4 p (hout p (by omega) (by omega)))
      (ih4 (p + 1) (hout (p + 1) (by omega) (by omega)))
    simp only [dealloc_run]
    rw [alloc_seq_concat]
    refine ⟨?_, ?_, ?_, hb2, ?_⟩
    · intro i q hq
      cases i with
      | zero =>
        simp only [List.getElem?_cons_zero, Option.some.injEq] at hq
        subst hq
        exact hact
      | succ j =>
        simp only [List.getElem?_cons_succ] at hq
        exact ih0 j q hq
    · rw [List.filter_append, hcalls, ih1]; rfl
    · show _ ++ [_] = _
      rw [ih2, hb1, List.reverse_cons]
    · intro a ha
      show (alloc E z E.size _).2.1.mem a = _
      rw [alloc_mem, hb1]
      have hap := ha p (List.mem_cons_self _ _)
      have e1 := ih4 a (fun q hq => ha q (List.mem_cons_of_mem _ hq))
      have e2 := hmem a hap
      cases z with
      | false => simp only [Bool.false_eq_true, if_false]; rw [e1, e2]
      | true =>
        have hx := zero_assert_slot hpg hso
        rw [← ho] at hx
        simp only [if_true]
        rw [PALFBSD_zero_exact _ _ _ _ _ _ hx]
        simp only [zero_range]
        rw [if_neg (by omega), e1, e2]

/-- The loop of `debug_slab_invariant` does not outlast the bytes left to
account for: with more tests of the loop condition allowed than object sizes
fit into what is left, it reaches an odd value or fails an assertion. -/
theorem debug_walk_fuel {E : Env} (link : Nat) (mem : Memory) (hpos : 0 < E.size)
    (hnw : E.size + SLAB_SIZE < SIZE_T_RANGE) :
    ∀ (fuel curr acc : Nat), acc ≤ SLAB_SIZE → (SLAB_SIZE - acc) / E.size < fuel →
      debug_walk E link mem fuel curr acc ≠ Walk.out_of_fuel
  | 0, _, _, _, h => absurd h (Nat.not_lt_zero _)
  | fuel + 1, curr, acc, hacc, hf => by
    have hsz : size_t (acc + E.size) = acc + E.size := by
      unfold size_t; unfold SIZE_T_RANGE at hnw ⊢; omega
    simp only [debug_walk, hsz]
    split_ifs with h1 h2 h3 h4
    · simp
    · simp
    · simp
    · apply debug_walk_fuel link mem hpos hnw fuel _ _ h3
      have hd := Nat.div_eq_sub_div hpos (by omega : E.size ≤ SLAB_SIZE - acc)
      have e : SLAB_SIZE - acc - E.size = SLAB_SIZE - (acc + E.size) := by omega
      rw [e] at hd
      omega
    · simp

/-- A walk that is left at the loop condition is left at an odd value. -/
theorem debug_walk_done_odd {E : Env} (link : Nat) (mem : Memory) :
    ∀ (fuel curr acc t a : Nat), debug_walk E link mem fuel curr acc = Walk.done t a → t % 2 = 1
  | 0, _, _, _, _, h => by simp [debug_walk] at h
  | fuel + 1, curr, acc, t, a, h => by
    simp only [debug_walk, Nat.and_one_is_mod] at h
    split_ifs at h with h1 h2 h3 h4
    · cases h; exact h1
    · exact debug_walk_done_odd link mem fuel _ _ t a h

/-! ## The claims -/

/-- Claim C1, as stated, fails.  In the layout of section 8 (objects of 64
bytes, payload from byte 64) the state after the first `alloc` is not Full,
and `used * object_size` + the free-list blocks + the bump remainder + the
link slot is 65472, not `SLAB_SIZE`: the 64 bytes in front of the payload are
in none of the four terms.  With the payload at byte 0, the state left by the
`dealloc` that hands the slab back (after one `alloc`) has the sum 65472 as
well: the block just freed is neither used nor on the free list. -/
theorem accounting_without_header_fails :
    ((run (env64 1048576) (fresh (env64 1048576) zero_mem) [Op.alloc false]).map
        (fun y => (y.returned, spec_accounting (env64 1048576) y.st)) = some (false, 65472)) ∧
    ((run (env0 1048576) (fresh (env0 1048576) zero_mem)
        [Op.alloc false, Op.dealloc (1048576 + 64)]).map
        (fun y => (y.returned, spec_accounting (env0 1048576) y.st)) = some (true, 65472)) ∧
    SLAB_SIZE = 65536 ∧ (env64 1048576).well_formed ∧ (env0 1048576).well_formed := by
  decide

/-- Claim C1, amended.  On a layout whose objects of at least
`PAGE_ALIGNED_SIZE` bytes are whole pages (what `PALFBSD::zero` asserts),
after every call of a valid run from a freshly initialised slab that has not
handed the slab back, `debug_slab_invariant` passes all its assertions with
`accounted_for == SLAB_SIZE`, and the payload start offset +
`used * object_size` + `object_size` for each block on the free-list chain +
the bytes from the bump offset to the end of the slab + `object_size` for the
link slot of a slab that is not Full equals `SLAB_SIZE`. -/
theorem accounting_invariant (E : Env) (hw : E.well_formed) (hpg : E.whole_pages)
    (mem : Memory) (ops : List Op) (y : Sys) (hrun : run E (fresh E mem) ops = some y)
    (hlive : y.returned = false) :
    debug_slab_invariant E y.st = Verdict.ok SLAB_SIZE ∧
    E.slab_offset - 1 + spec_accounting E y.st = SLAB_SIZE := by
  have hi := (good_run hw hpg ops _ y (good_fresh hw mem) hrun).1 hlive
  exact ⟨debug_ok hw hi, spec_accounting_eq hw hi⟩

theorem accounting_invariant_witness :
    (env64 1048576).well_formed ∧ (env64 1048576).whole_pages ∧
    run (env64 1048576) (fresh (env64 1048576) zero_mem) [Op.alloc false] =
      some { st := { meta := Metaslab.mk 1 193 64, mem := zero_mem }, live := [1048704],
             returned := false } ∧
    debug_slab_invariant (env64 1048576) { meta := Metaslab.mk 1 193 64, mem := zero_mem }
      = Verdict.ok SLAB_SIZE ∧
    64 + spec_accounting (env64 1048576) { meta := Metaslab.mk 1 193 64, mem := zero_mem }
      = SLAB_SIZE :=
  ⟨by decide, by decide, rfl,
    accounting_invariant (env64 1048576) (by decide) (by decide) zero_mem [Op.alloc false]
      { st := { meta := Metaslab.mk 1 193 64, mem := zero_mem }, live := [1048704],
        returned := false } rfl rfl⟩

/-- Claim C2, as stated, fails.  For a slab of capacity 1, the `dealloc` that
hands the slab back leaves `link == 1` (`is_full()` true) with `used == 0`. -/
theorem full_after_return_of_single_object :
    (run (env1 1048576) (fresh (env1 1048576) zero_mem)
        [Op.alloc false, Op.dealloc (1048576 + 32768)]).map
      (fun y => (y.returned, y.st.meta.is_full, y.st.meta.used)) = some (true, true, 0) ∧
    (env1 1048576).capacity = 1 ∧ (env1 1048576).well_formed := by
  decide

/-- Claim C2, amended.  On a layout whose objects of at least
`PAGE_ALIGNED_SIZE` bytes are whole pages (what `PALFBSD::zero` asserts), in
every state reached by a valid run from a freshly initialised slab,
`is_full()` holds if and only if `used == capacity`, the
state left by the `dealloc` that hands back a slab of capacity 1 excepted. -/
theorem full_iff_used_eq_capacity (E : Env) (hw : E.well_formed) (hpg : E.whole_pages)
    (mem : Memory) (ops : List Op) (y : Sys) (hrun : run E (fresh E mem) ops = some y)
    (hr : y.returned = false ∨ 2 ≤ E.capacity) :
    y.st.meta.is_full = true ↔ y.st.meta.used = E.capacity :=
  full_iff_capacity hw (good_run hw hpg ops _ y (good_fresh hw mem) hrun) hr

theorem full_iff_used_eq_capacity_witness :
    (env3 65536).well_formed ∧ (env3 65536).whole_pages ∧
    run (env3 65536) (fresh (env3 65536) zero_mem) [Op.alloc false, Op.alloc false, Op.alloc false]
      = some { st := { meta := Metaslab.mk 3 1 1, mem := zero_mem },
               live := [65536 + 16384, 65536 + 49152, 65536 + 32768], returned := false } ∧
    ((Metaslab.mk 3 1 1).is_full = true ↔ 3 = (env3 65536).capacity) :=
  ⟨by decide, by decide, rfl,
    full_iff_used_eq_capacity (env3 65536) (by decide) (by decide) zero_mem
      [Op.alloc false, Op.alloc false, Op.alloc false]
      { st := { meta := Metaslab.mk 3 1 1, mem := zero_mem },
        live := [65536 + 16384, 65536 + 49152, 65536 + 32768], returned := false }
      rfl (Or.inl rfl)⟩

/-- Claim C3 (LIFO reuse).  In a state reached by a valid run, if `dealloc(p)`
of a block handed out returns `NoSlabReturn`, then the next `alloc` returns
`p`: through `link` (with `head == 1`) when the slab was Full, through `head`
when it was not. -/
theorem lifo_reuse (E : Env) (hw : E.well_formed) (mem : Memory) (ops : List Op) (y : Sys)
    (p : Nat) (z : Bool) (hrun : run E (fresh E mem) ops = some y)
    (hlive : y.returned = false) (hp : p ∈ y.live)
    (hret : (dealloc E p y.st).1 = Action.NoSlabReturn) :
    (alloc E z E.size (dealloc E p y.st).2.1).1 = p ∧
    (y.st.meta.is_full = true →
      (dealloc E p y.st).2.1.meta.head = 1 ∧
      E.slab + (dealloc E p y.st).2.1.meta.link = p) ∧
    (y.st.meta.is_full = false → E.slab + (dealloc E p y.st).2.1.meta.head = p) := by
  have _hnr := hlive
  have hk := weak_run ops _ y (weak_fresh hw mem) hrun
  obtain ⟨o, rfl, hev, hol⟩ := hk.live_even p hp
  have hidx := pointer_to_index_add E o hol
  by_cases hl : y.st.meta.link = 1
  · have hhead := hk.full_head hl
    by_cases h1 : dec16 y.st.meta.used = 0
    · rw [dealloc_full_last E _ y.st hl h1] at hret
      exact absurd hret (by simp)
    · rw [dealloc_from_full E _ y.st hl h1, hidx]
      refine ⟨?_, fun _ => ⟨hhead, rfl⟩, fun h => ?_⟩
      · generalize dec16 y.st.meta.used = u
        exact (alloc_exhausted E z E.size (SlabState.mk (Metaslab.mk u y.st.meta.head o) y.st.mem)
          hhead).1
      · simp [Metaslab.is_full, hl] at h
  · by_cases h1 : dec16 y.st.meta.used = 0
    · rw [dealloc_last E _ y.st hl h1] at hret
      exact absurd hret (by simp)
    · rw [dealloc_ordinary E _ y.st hl h1, hidx]
      refine ⟨?_, fun h => ?_, fun _ => rfl⟩
      · generalize dec16 y.st.meta.used = u
        exact (alloc_free_list E z E.size (SlabState.mk (Metaslab.mk u o y.st.meta.link)
          (store16 y.st.mem (E.slab + o) y.st.meta.head)) hev).1
      · simp [Metaslab.is_full, hl] at h

theorem lifo_reuse_witness :
    run (env3 65536) (fresh (env3 65536) zero_mem) [Op.alloc false, Op.alloc false, Op.alloc false]
      = some { st := { meta := Metaslab.mk 3 1 1, mem := zero_mem },
               live := [65536 + 16384, 65536 + 49152, 65536 + 32768], returned := false } ∧
    (alloc (env3 65536) false 16384
      (dealloc (env3 65536) (65536 + 49152) { meta := Metaslab.mk 3 1 1, mem := zero_mem }).2.1).1
      = 65536 + 49152 :=
  ⟨rfl, (lifo_reuse (env3 65536) (by decide) zero_mem [Op.alloc false, Op.alloc false, Op.alloc false]
    { st := { meta := Metaslab.mk 3 1 1, mem := zero_mem },
      live := [65536 + 16384, 65536 + 49152, 65536 + 32768], returned := false }
    (65536 + 49152) false rfl rfl (by decide) (by decide)).1⟩

/-- Claim C4 (drain to return).  A call of `dealloc` ends with the reclaim
call, once, and returns its result exactly when `used` is 0 after the
decrement; otherwise it returns `NoSlabReturn` without a reclaim.  When it
reclaims, the only list call is one `remove` of the link node if the slab was
not Full, and there is no list call if it was Full.  The reclaim call is
`dealloc_short_slab` for a short slab and `dealloc_slab(this)` otherwise.  A
run of `used` deallocs from a slab that is not Full ends with `used == 0`
and makes one `remove` and one reclaim in all. -/
theorem drain_to_return (E : Env) (p : Nat) (s : SlabState) :
    (s.meta.sub_use.used = 0 →
      (dealloc E p s).1 = Action.returned_by (reclaim_call E) ∧
      (dealloc E p s).2.2.filter Call.is_reclaim = [reclaim_call E] ∧
      (s.meta.is_full = false → (dealloc E p s).2.2.filter Call.is_list_op =
        [Call.remove E.sizeclass (s.meta.get_link E)]) ∧
      (s.meta.is_full = true → (dealloc E p s).2.2.filter Call.is_list_op = [])) ∧
    (s.meta.sub_use.used ≠ 0 →
      (dealloc E p s).1 = Action.NoSlabReturn ∧
      (dealloc E p s).2.2.filter Call.is_reclaim = []) ∧
    reclaim_call E = (if E.is_short then Call.dealloc_short_slab else Call.dealloc_slab E.slab) ∧
    (∀ (ps : List Nat) (q : Nat), s.meta.is_full = false → s.meta.used = ps.length + 1 →
      s.meta.used < 65536 →
      (dealloc_run E s (ps ++ [q])).1.meta.used = 0 ∧
      ((dealloc_run E s (ps ++ [q])).2.filter Call.is_remove).length = 1 ∧
      ((dealloc_run E s (ps ++ [q])).2.filter Call.is_reclaim).length = 1) := by
  have hr := reclaim_call_is_reclaim E
  have hn := reclaim_call_not_list_op E
  refine ⟨?_, ?_, rfl, ?_⟩
  · intro h0
    have h0u : dec16 s.meta.used = 0 := h0
    by_cases hl : s.meta.link = 1
    · rw [dealloc_full_last E p s hl h0u]
      simp [List.filter, hr, hn, Metaslab.is_full, hl]
    · rw [dealloc_last E p s hl h0u]
      have e1 : (Call.remove E.sizeclass (E.slab + s.meta.link)).is_reclaim = false := rfl
      have e2 : (Call.remove E.sizeclass (E.slab + s.meta.link)).is_list_op = true := rfl
      simp [List.filter, hr, hn, e1, e2, Metaslab.is_full, hl, Metaslab.get_link]
  · intro h0
    have h0u : dec16 s.meta.used ≠ 0 := h0
    by_cases hl : s.meta.link = 1
    · rw [dealloc_from_full E p s hl h0u]
      simp [List.filter, Call.is_reclaim]
    · rw [dealloc_ordinary E p s hl h0u]
      simp
  · intro ps q hf hu hlt
    have hl : s.meta.link ≠ 1 := by simpa [Metaslab.is_full] using hf
    obtain ⟨h1, h2, -, -⟩ := dealloc_run_drain E ps q s hl hu hlt
    rw [h2]
    have e1 : (Call.remove E.sizeclass (E.slab + s.meta.link)).is_reclaim = false := rfl
    have e2 : (Call.remove E.sizeclass (E.slab + s.meta.link)).is_remove = true := rfl
    simp [h1, List.filter, hr, reclaim_call_not_remove E, e1, e2]

theorem drain_to_return_witness :
    (dealloc (env64 65536) (65536 + 128) { meta := Metaslab.mk 1 193 64, mem := zero_mem }).1
      = Action.returned_by (Call.dealloc_slab 65536) ∧
    (dealloc (env64 65536) (65536 + 128) { meta := Metaslab.mk 2 257 64, mem := zero_mem }).1
      = Action.NoSlabReturn ∧
    ((dealloc_run (env64 65536) { meta := Metaslab.mk 2 257 64, mem := zero_mem }
      ([65536 + 128] ++ [65536 + 192])).2.filter Call.is_reclaim).length = 1 :=
  ⟨((drain_to_return (env64 65536) (65536 + 128)
      { meta := Metaslab.mk 1 193 64, mem := zero_mem }).1 (by decide)).1,
   ((drain_to_return (env64 65536) (65536 + 128)
      { meta := Metaslab.mk 2 257 64, mem := zero_mem }).2.1 (by decide)).1,
   ((drain_to_return (env64 65536) (65536 + 128)
      { meta := Metaslab.mk 2 257 64, mem := zero_mem }).2.2.2 [65536 + 128] (65536 + 192)
      (by decide) (by decide) (by decide)).2.2⟩

/-- Claim C5 (Full to HasSpace).  On a Full slab with `head == 1` and
`used == capacity > 1`, `dealloc` of the block at slot offset `o` returns
`NoSlabReturn`, leaves `is_full()` false, `link == o`, `head == 1`,
`used == capacity - 1`, and makes one call, the `insert` of the node at the
block into the list of the slab's size class. -/
theorem full_to_has_space (E : Env) (hw : E.well_formed) (s : SlabState) (o : Nat)
    (hfull : s.meta.is_full = true) (hhead : s.meta.head = 1)
    (hused : s.meta.used = E.capacity) (hcap : 1 < E.capacity) (hslot : Slot E o) :
    (dealloc E (E.slab + o) s).1 = Action.NoSlabReturn ∧
    (dealloc E (E.slab + o) s).2.1.meta.is_full = false ∧
    (dealloc E (E.slab + o) s).2.1.meta.link = o ∧
    (dealloc E (E.slab + o) s).2.1.meta.head = 1 ∧
    (dealloc E (E.slab + o) s).2.1.meta.used = E.capacity - 1 ∧
    (dealloc E (E.slab + o) s).2.2 = [Call.insert E.sizeclass (E.slab + o)] ∧
    (dealloc E (E.slab + o) s).2.1.meta.get_link E = E.slab + o := by
  have hl : s.meta.link = 1 := by simpa [Metaslab.is_full] using hfull
  have hc := capacity_lt hw
  have hu : dec16 s.meta.used = E.capacity - 1 := by
    rw [hused]; unfold dec16; omega
  have hidx := pointer_to_index_add E o (hslot.lt hw)
  have hev := hslot.even hw
  rw [dealloc_from_full E _ s hl (by rw [hu]; omega), hu, hidx]
  refine ⟨rfl, ?_, rfl, hhead, rfl, rfl, rfl⟩
  simp only [Metaslab.is_full, beq_eq_false_iff_ne]
  omega

theorem full_to_has_space_witness :
    (dealloc (env3 65536) (65536 + 49152) { meta := Metaslab.mk 3 1 1, mem := zero_mem }).2.1.meta
      = Metaslab.mk 2 1 49152 ∧
    (dealloc (env3 65536) (65536 + 49152) { meta := Metaslab.mk 3 1 1, mem := zero_mem }).2.2
      = [Call.insert 38 (65536 + 49152)] := by
  have h := full_to_has_space (env3 65536) (by decide)
    { meta := Metaslab.mk 3 1 1, mem := zero_mem } 49152 rfl rfl (by decide) (by decide)
    ⟨2, by decide, by decide⟩
  exact ⟨by decide, h.2.2.2.2.2.1⟩

/-- Claim C6 (bump allocation).  With `head` odd and not 1 and an even object
size that fits in a slab, `alloc` returns the block at offset `head - 1`,
adds one to `used`, keeps `link`, makes no list call, and sets `head` to
`(head + rsize) mod SLAB_SIZE`, which is odd and is 1 exactly when
`head - 1 + rsize == SLAB_SIZE`. -/
theorem bump_allocation (E : Env) (z : Bool) (rsize : Nat) (s : SlabState)
    (hrange : s.meta.in_range) (hodd : s.meta.head % 2 = 1) (hne : s.meta.head ≠ 1)
    (heven : rsize % 2 = 0) (hfit : rsize ≤ SLAB_SIZE) (hused : s.meta.used + 1 < 65536) :
    (alloc E z rsize s).1 = E.slab + (s.meta.head - 1) ∧
    (alloc E z rsize s).2.1.meta.used = s.meta.used + 1 ∧
    (alloc E z rsize s).2.1.meta.link = s.meta.link ∧
    (alloc E z rsize s).2.2.filter Call.is_list_op = [] ∧
    (alloc E z rsize s).2.1.meta.head = (s.meta.head + rsize) % SLAB_SIZE ∧
    (alloc E z rsize s).2.1.meta.head % 2 = 1 ∧
    ((alloc E z rsize s).2.1.meta.head = 1 ↔ s.meta.head - 1 + rsize = SLAB_SIZE) := by
  obtain ⟨hp, hm, hc⟩ := alloc_bump E z rsize s hodd hne
  obtain ⟨-, hh, -⟩ := hrange
  have hu : uint16_t (s.meta.used + 1) = s.meta.used + 1 := by unfold uint16_t; omega
  rw [hm, hu]
  refine ⟨hp, rfl, rfl, hc, rfl, ?_, ?_⟩
  · show (s.meta.head + rsize) % SLAB_SIZE % 2 = 1
    unfold SLAB_SIZE; omega
  · show (s.meta.head + rsize) % SLAB_SIZE = 1 ↔ _
    unfold SLAB_SIZE at *; omega

theorem bump_allocation_witness :
    (alloc (env64 65536) false 64 { meta := Metaslab.mk 1021 65473 64, mem := zero_mem }).1
      = 65536 + 65472 ∧
    (alloc (env64 65536) false 64 { meta := Metaslab.mk 1021 65473 64, mem := zero_mem }).2.1.meta
      = Metaslab.mk 1022 1 64 := by
  have h := bump_allocation (env64 65536) false 64
    { meta := Metaslab.mk 1021 65473 64, mem := zero_mem } (by decide) (by decide) (by decide)
    (by decide) (by decide) (by decide)
  exact ⟨h.1, by decide⟩

/-- Claim C7 (free-list allocation).  With `head` even, `alloc` returns the
block at offset `head`, sets `head` to the 16-bit value stored at the start of
that block before the call, adds one to `used`, keeps `link` (so the slab
does not become Full) and makes no list call. -/
theorem free_list_allocation (E : Env) (z : Bool) (rsize : Nat) (s : SlabState)
    (heven : s.meta.head % 2 = 0) (hused : s.meta.used + 1 < 65536) :
    (alloc E z rsize s).1 = E.slab + s.meta.head ∧
    (alloc E z rsize s).2.1.meta.head = load16 s.mem (E.slab + s.meta.head) ∧
    (alloc E z rsize s).2.1.meta.used = s.meta.used + 1 ∧
    (alloc E z rsize s).2.1.meta.link = s.meta.link ∧
    (alloc E z rsize s).2.2.filter Call.is_list_op = [] ∧
    (alloc E z rsize s).2.1.meta.is_full = s.meta.is_full := by
  obtain ⟨hp, hm, hc⟩ := alloc_free_list E z rsize s heven
  have hu : uint16_t (s.meta.used + 1) = s.meta.used + 1 := by unfold uint16_t; omega
  rw [hm, hu]
  exact ⟨hp, rfl, rfl, rfl, hc, rfl⟩

theorem free_list_allocation_witness :
    (alloc (env64 65536) true 64
      { meta := Metaslab.mk 1 128 64, mem := store16 zero_mem (65536 + 128) 193 }).1 = 65536 + 128 ∧
    (alloc (env64 65536) true 64
      { meta := Metaslab.mk 1 128 64, mem := store16 zero_mem (65536 + 128) 193 }).2.1.meta.head
      = 193 := by
  have h := free_list_allocation (env64 65536) true 64
    { meta := Metaslab.mk 1 128 64, mem := store16 zero_mem (65536 + 128) 193 }
    (by decide) (by decide)
  exact ⟨h.1, by decide⟩

/-- Claim C8 (exhausted slab).  With `head == 1` on a slab that is not Full,
`alloc` returns the block at offset `link`, makes one list call, `pop`, and
leaves `link == 1`, `head == 1` and `used` one higher; both assertions of
`set_full` hold where it is called. -/
theorem exhausted_allocation (E : Env) (z : Bool) (rsize : Nat) (s : SlabState)
    (hhead : s.meta.head = 1) (hnf : s.meta.is_full = false) (hused : s.meta.used + 1 < 65536) :
    (alloc E z rsize s).1 = E.slab + s.meta.link ∧
    (alloc E z rsize s).2.2.filter Call.is_list_op = [Call.pop] ∧
    (alloc E z rsize s).2.1.meta = s.meta.add_use.set_full ∧
    s.meta.add_use.set_full_asserts = true ∧
    (alloc E z rsize s).2.1.meta.is_full = true ∧
    (alloc E z rsize s).2.1.meta.link = 1 ∧
    (alloc E z rsize s).2.1.meta.head = 1 ∧
    (alloc E z rsize s).2.1.meta.used = s.meta.used + 1 := by
  obtain ⟨hp, hm, hc⟩ := alloc_exhausted E z rsize s hhead
  have hu : uint16_t (s.meta.used + 1) = s.meta.used + 1 := by unfold uint16_t; omega
  have hl : s.meta.link ≠ 1 := by simpa [Metaslab.is_full] using hnf
  have h1 : mod_slab 1 = 1 := mod_slab_of_lt (by omega)
  rw [hm, hu]
  refine ⟨hp, hc, ?_, ?_, rfl, rfl, rfl, rfl⟩
  · simp [Metaslab.add_use, Metaslab.set_full, hhead, h1, hu]
  · simp [Metaslab.add_use, Metaslab.set_full_asserts, hhead, hl]

theorem exhausted_allocation_witness :
    (alloc (env64 65536) false 64 { meta := Metaslab.mk 1022 1 64, mem := zero_mem }).1
      = 65536 + 64 ∧
    (alloc (env64 65536) false 64 { meta := Metaslab.mk 1022 1 64, mem := zero_mem }).2.1.meta
      = Metaslab.mk 1023 1 1 := by
  have h := exhausted_allocation (env64 65536) false 64
    { meta := Metaslab.mk 1022 1 64, mem := zero_mem } rfl (by decide) (by decide)
  exact ⟨h.1, by decide⟩

/-- Claim C9 (ordinary deallocation).  On a slab that is not Full with
`used >= 2`, `dealloc` of the block at offset `o` returns `NoSlabReturn`,
stores the previous `head` in the first two bytes of the block, sets `head` to
`o`, takes one from `used`, and leaves `link` and every other byte alone,
without any call to a list or to the `Superslab`. -/
theorem ordinary_deallocation (E : Env) (s : SlabState) (o : Nat)
    (hrange : s.meta.in_range) (hnf : s.meta.is_full = false) (hused : 2 ≤ s.meta.used)
    (ho : o < SLAB_SIZE) :
    (dealloc E (E.slab + o) s).1 = Action.NoSlabReturn ∧
    load16 (dealloc E (E.slab + o) s).2.1.mem (E.slab + o) = s.meta.head ∧
    (dealloc E (E.slab + o) s).2.1.meta.head = o ∧
    (dealloc E (E.slab + o) s).2.1.meta.used = s.meta.used - 1 ∧
    (dealloc E (E.slab + o) s).2.1.meta.link = s.meta.link ∧
    (∀ a, a ≠ E.slab + o → a ≠ E.slab + o + 1 →
      (dealloc E (E.slab + o) s).2.1.mem a = s.mem a) ∧
    (dealloc E (E.slab + o) s).2.2 = [] := by
  obtain ⟨hu1, hh, -⟩ := hrange
  have hl : s.meta.link ≠ 1 := by simpa [Metaslab.is_full] using hnf
  have hu : dec16 s.meta.used = s.meta.used - 1 := by unfold dec16; omega
  have hidx := pointer_to_index_add E o ho
  rw [dealloc_ordinary E _ s hl (by rw [hu]; omega), hu, hidx]
  refine ⟨rfl, load16_store16 _ _ _ hh, rfl, rfl, rfl, ?_, rfl⟩
  intro a h1 h2
  show store16 s.mem (E.slab + o) s.meta.head a = s.mem a
  unfold store16
  rw [if_neg h1, if_neg h2]

theorem ordinary_deallocation_witness :
    (dealloc (env64 65536) (65536 + 128) { meta := Metaslab.mk 2 257 64, mem := zero_mem }).2.1.meta
      = Metaslab.mk 1 128 64 ∧
    load16 (dealloc (env64 65536) (65536 + 128)
      { meta := Metaslab.mk 2 257 64, mem := zero_mem }).2.1.mem (65536 + 128) = 257 := by
  have h := ordinary_deallocation (env64 65536) { meta := Metaslab.mk 2 257 64, mem := zero_mem }
    128 (by decide) (by decide) (by decide) (by decide)
  exact ⟨by decide, h.2.1⟩

/-- Claim C10 (the scenario of section 8).  With objects of 64 bytes and the
payload from byte 64, the fresh slab has `used = 0`, `link = 64`,
`head = 129` and capacity 1023.  Before each of the first 1022 calls of
`alloc` the head is a bump pointer; after them `head == 1`; the 1023rd call
returns the link slot at offset 64 and leaves the slab Full with
`used == 1023`.  Freeing any one block then returns `NoSlabReturn` and leaves
the slab not Full with `link` at that block; freeing the other 1022 blocks in
any order ends with `used == 0`, one reclaim in all, and none before the
last free. -/
theorem scenario_1023 (slab : Nat) (mem : Memory) :
    fresh_meta (env64 slab) = Metaslab.mk 0 129 64 ∧ (env64 slab).capacity = 1023 ∧
    (∀ k, k < 1022 →
      (alloc_run (env64 slab) k (scenario_start slab mem)).1.meta.head % 2 = 1 ∧
      (alloc_run (env64 slab) k (scenario_start slab mem)).1.meta.head ≠ 1 ∧
      (alloc_run (env64 slab) k (scenario_start slab mem)).1.meta.is_full = false) ∧
    (alloc_run (env64 slab) 1022 (scenario_start slab mem)).1.meta = Metaslab.mk 1022 1 64 ∧
    (scenario_full slab mem).1.meta = Metaslab.mk 1023 1 1 ∧
    (scenario_full slab mem).1.meta.is_full = true ∧
    (scenario_full slab mem).2 =
      (List.range' 0 1022).map (fun i => slab + 128 + 64 * i) ++ [slab + 64] ∧
    ∀ p ∈ (scenario_full slab mem).2,
      (dealloc (env64 slab) p (scenario_full slab mem).1).1 = Action.NoSlabReturn ∧
      (dealloc (env64 slab) p (scenario_full slab mem).1).2.1.meta.is_full = false ∧
      (dealloc (env64 slab) p (scenario_full slab mem).1).2.1.meta.get_link (env64 slab) = p ∧
      ∀ qs : List Nat, qs.Perm ((scenario_full slab mem).2.erase p) →
        (dealloc_run (env64 slab) (dealloc (env64 slab) p (scenario_full slab mem).1).2.1
          qs).1.meta.used = 0 ∧
        ((dealloc_run (env64 slab) (dealloc (env64 slab) p (scenario_full slab mem).1).2.1
          qs).2.filter Call.is_reclaim).length = 1 ∧
        (dealloc_run (env64 slab) (dealloc (env64 slab) p (scenario_full slab mem).1).2.1
          qs.dropLast).2.filter Call.is_reclaim = [] := by
  have hrun := scenario_run_eq slab mem
  have h1022 := hrun 1022 (le_refl _)
  have hfull := scenario_full_eq slab mem
  have hcap : (env64 slab).capacity = 1023 := by
    show (65536 - (65 - 1)) / 64 = 1023
    norm_num
  refine ⟨rfl, hcap, ?_, ?_, ?_, ?_, ?_, ?_⟩
  · intro k hk
    rw [hrun k (by omega)]
    have : (129 + 64 * k) % 65536 = 129 + 64 * k := by omega
    simp only [this, Metaslab.is_full]
    refine ⟨by omega, by omega, by decide⟩
  · rw [h1022]
  · rw [hfull]
  · rw [hfull]; rfl
  · rw [hfull]
  · rw [hfull]
    intro p hp
    simp only at hp ⊢
    have hpo : ∃ o, p = slab + o ∧ o < 65536 ∧ o % 2 = 0 := by
      rcases List.mem_append.mp hp with h | h
      · obtain ⟨i, hi, rfl⟩ := List.mem_map.mp h
        have := (List.mem_range'_1.mp hi).2
        exact ⟨128 + 64 * i, by omega, by omega, by omega⟩
      · exact ⟨64, by simpa using h, by omega, by omega⟩
    obtain ⟨o, rfl, ho, hev⟩ := hpo
    have hidx := pointer_to_index_add (env64 slab) o ho
    have hu : dec16 1023 = 1022 := by decide
    have hd := dealloc_from_full (env64 slab) (slab + o)
      { meta := Metaslab.mk 1023 1 1, mem := mem } rfl
      (by show dec16 1023 ≠ 0; rw [hu]; decide)
    have hidx2 : pointer_to_index (env64 slab) (slab + o) = o := hidx
    simp only [hidx2, hu] at hd
    rw [hd]
    refine ⟨rfl, ?_, rfl, ?_⟩
    · simp only [Metaslab.is_full, beq_eq_false_iff_ne]; omega
    · intro qs hperm
      have hlen : qs.length = 1022 := by
        rw [hperm.length_eq, List.length_erase_of_mem hp]
        simp
      exact dealloc_run_all (env64 slab) qs _ (by show o ≠ 1; omega)
        (by show 1022 = qs.length; omega) (by omega) (by show 1022 < 65536; omega)

theorem scenario_1023_witness :
    (scenario_full 65536 zero_mem).1.meta = Metaslab.mk 1023 1 1 ∧
    (dealloc_run (env64 65536)
      (dealloc (env64 65536) (65536 + 64) (scenario_full 65536 zero_mem).1).2.1
      ((scenario_full 65536 zero_mem).2.erase (65536 + 64))).1.meta.used = 0 :=
  ⟨(scenario_1023 65536 zero_mem).2.2.2.2.1,
    (((scenario_1023 65536 zero_mem).2.2.2.2.2.2.2 (65536 + 64)
      (by rw [scenario_full_eq]; simp)).2.2.2 _ (List.Perm.refl _)).1⟩

/-- Claim C11 (zeroed allocation).  From any state and for any object size,
with pages of a positive size, `alloc<YesZero>` returns the same address and
leaves the same `Metaslab` as `alloc<NoZero>`; the `rsize` bytes of the
returned block are zero afterwards, while `alloc<NoZero>` changes no byte; in
the free-list case the new `head` is the value the block held before it was
zeroed.  The zeroing is the last call made: `zero(p, rsize)` when `rsize` is
below `PAGE_ALIGNED_SIZE` and `zero<true>(p, rsize)` otherwise, and the
memory is what `PALFBSD::zero` leaves.  Bytes outside the block and outside
the pages that overlap it are unchanged; where the assertion of
`PALFBSD::zero` holds, every byte outside the block is unchanged. -/
theorem zeroed_allocation (E : Env) (rsize : Nat) (s : SlabState) (hpage : 0 < E.OS_PAGE_SIZE) :
    (alloc E true rsize s).1 = (alloc E false rsize s).1 ∧
    (alloc E true rsize s).2.1.meta = (alloc E false rsize s).2.1.meta ∧
    (∀ a, (alloc E true rsize s).1 ≤ a → a < (alloc E true rsize s).1 + rsize →
      (alloc E true rsize s).2.1.mem a = 0) ∧
    (alloc E false rsize s).2.1.mem = s.mem ∧
    (s.meta.head % 2 = 0 →
      (alloc E true rsize s).2.1.meta.head = load16 s.mem (E.slab + s.meta.head)) ∧
    (alloc E true rsize s).2.2 = (alloc E false rsize s).2.2 ++
      [Call.zero (decide (¬ rsize < E.PAGE_ALIGNED_SIZE)) (alloc E true rsize s).1 rsize] ∧
    (alloc E false rsize s).2.2.filter Call.is_zero = [] ∧
    (rsize < E.PAGE_ALIGNED_SIZE →
      (alloc E true rsize s).2.2.getLast? = some (Call.zero false (alloc E true rsize s).1 rsize)) ∧
    (¬ rsize < E.PAGE_ALIGNED_SIZE →
      (alloc E true rsize s).2.2.getLast? = some (Call.zero true (alloc E true rsize s).1 rsize)) ∧
    (alloc E true rsize s).2.1.mem =
      PALFBSD_zero E.OS_PAGE_SIZE (decide (¬ rsize < E.PAGE_ALIGNED_SIZE))
        (E.mmap_ok (alloc E true rsize s).1 rsize) s.mem (alloc E true rsize s).1 rsize ∧
    (∀ a, ¬ ((alloc E true rsize s).1 ≤ a ∧ a < (alloc E true rsize s).1 + rsize) →
      ¬ ((alloc E true rsize s).1 / E.OS_PAGE_SIZE * E.OS_PAGE_SIZE ≤ a ∧
        a < ((alloc E true rsize s).1 + rsize + E.OS_PAGE_SIZE - 1) / E.OS_PAGE_SIZE
          * E.OS_PAGE_SIZE) →
      (alloc E true rsize s).2.1.mem a = s.mem a) ∧
    (PALFBSD_zero_assert E.OS_PAGE_SIZE (decide (¬ rsize < E.PAGE_ALIGNED_SIZE))
        (alloc E true rsize s).1 rsize = true →
      ∀ a, ¬ ((alloc E true rsize s).1 ≤ a ∧ a < (alloc E true rsize s).1 + rsize) →
        (alloc E true rsize s).2.1.mem a = s.mem a) := by
  obtain ⟨h1, h2, h3⟩ := alloc_zero_same E rsize s
  have hm := alloc_mem E true rsize s
  have hm0 := alloc_mem E false rsize s
  simp only [if_true] at hm
  simp only [Bool.false_eq_true, if_false] at hm0
  refine ⟨h1, h2, ?_, hm0, ?_, ?_, ?_, ?_, ?_, hm, ?_, ?_⟩
  · intro a ha hb
    rw [hm]
    exact PALFBSD_zero_block _ hpage _ _ _ _ _ _ ha hb
  · intro hev
    exact (alloc_free_list E true rsize s hev).2.1 ▸ rfl
  · rw [h3, h1]
  · rcases alloc_calls_no_zero E rsize s with h | h <;> rw [h] <;> rfl
  · intro hlt
    rw [h3, h1]
    simp [hlt]
  · intro hlt
    rw [h3, h1]
    simp [hlt]
  · intro a ha hb
    rw [hm]
    exact PALFBSD_zero_frame _ _ _ _ _ _ _ ha hb
  · intro hassert a ha
    rw [hm, PALFBSD_zero_exact _ _ _ _ _ _ hassert]
    simp only [zero_range]
    rw [if_neg ha]

theorem zeroed_allocation_witness :
    0 < (env64 65536).OS_PAGE_SIZE ∧
    (alloc (env64 65536) true 64
      { meta := Metaslab.mk 1 128 64, mem := store16 zero_mem (65536 + 128) 193 }).2.1.meta.head
      = 193 ∧
    (alloc (env64 65536) true 64
      { meta := Metaslab.mk 1 128 64, mem := store16 zero_mem (65536 + 128) 193 }).2.1.mem
      (65536 + 128) = 0 ∧
    (alloc (env64 65536) true 64
      { meta := Metaslab.mk 1 128 64, mem := store16 zero_mem (65536 + 128) 193 }).2.2
      = [Call.zero false (65536 + 128) 64] :=
  have h := zeroed_allocation (env64 65536) 64
    { meta := Metaslab.mk 1 128 64, mem := store16 zero_mem (65536 + 128) 193 } (by decide)
  ⟨by decide, (h.2.2.2.2.1 (by decide)).trans (by decide),
    h.2.2.1 (65536 + 128) (by decide) (by decide), by decide⟩

/-- Claim C12, as stated, fails.  With objects of 48 bytes and the payload
from byte 64, `head = 16` is congruent to the payload start modulo 48 and
`valid_head` returns false, while `head = 48` is not congruent and
`valid_head` returns true: below the payload start the difference wraps in
`size_t`, and 48 does not divide the number of `size_t` values. -/
theorem valid_head_wraps_below_payload :
    (Metaslab.mk 0 16 64).valid_head (env48 0) = false ∧
    (16 / 2 * 2) % (env48 0).size = ((env48 0).slab_offset / 2 * 2) % (env48 0).size ∧
    (Metaslab.mk 0 48 64).valid_head (env48 0) = true ∧
    (48 / 2 * 2) % (env48 0).size ≠ ((env48 0).slab_offset / 2 * 2) % (env48 0).size := by
  decide

/-- Claim C12, amended.  For a `head` in `[0, SLAB_SIZE)` whose
untagged value is not below the untagged payload start offset, or for an
object size that divides the number of `size_t` values (a power of two),
`valid_head` returns true exactly when `head` with its tag bit cleared is
congruent, modulo the object size, to the payload start offset with its tag
bit cleared. -/
theorem valid_head_iff_congruent (E : Env) (m : Metaslab) (hhead : m.head < SLAB_SIZE)
    (hoff : E.slab_offset < SIZE_T_RANGE)
    (hdom : E.slab_offset / 2 * 2 ≤ m.head / 2 * 2 ∨ SIZE_T_RANGE % E.size = 0) :
    m.valid_head E = true ↔
      (m.head / 2 * 2) % E.size = (E.slab_offset / 2 * 2) % E.size := by
  unfold SLAB_SIZE at hhead
  unfold SIZE_T_RANGE at hoff hdom
  have hso : size_t E.slab_offset = E.slab_offset := by
    unfold size_t SIZE_T_RANGE; omega
  simp only [Metaslab.valid_head, hso, beq_iff_eq]
  by_cases hle : E.slab_offset / 2 * 2 ≤ m.head / 2 * 2
  · have e : size_t_sub (m.head / 2 * 2) (E.slab_offset / 2 * 2)
        = m.head / 2 * 2 - E.slab_offset / 2 * 2 := by
      unfold size_t_sub; omega
    rw [e]
    exact sub_mod_eq_zero_iff _ _ _ hle
  · have hdiv : E.size ∣ 18446744073709551616 := by
      rcases hdom with h | h
      · exact absurd h hle
      · exact Nat.dvd_of_mod_eq_zero h
    have hlt : m.head / 2 * 2 < E.slab_offset / 2 * 2 := Nat.lt_of_not_le hle
    have e : size_t_sub (m.head / 2 * 2) (E.slab_offset / 2 * 2)
        = 18446744073709551616 - (E.slab_offset / 2 * 2 - m.head / 2 * 2) := by
      unfold size_t_sub; omega
    rw [e, ← Nat.dvd_iff_mod_eq_zero]
    have hd : E.slab_offset / 2 * 2 - m.head / 2 * 2 ≤ 18446744073709551616 := by omega
    have key := sub_mod_eq_zero_iff (E.slab_offset / 2 * 2) (m.head / 2 * 2) E.size
      (Nat.le_of_lt hlt)
    rw [← Nat.dvd_iff_mod_eq_zero] at key
    constructor
    · intro h
      have h2 := Nat.dvd_sub' hdiv h
      rw [Nat.sub_sub_self hd] at h2
      exact (key.mp h2).symm
    · intro h
      exact Nat.dvd_sub' hdiv (key.mpr h.symm)

theorem valid_head_iff_congruent_witness :
    (Metaslab.mk 0 112 64).valid_head (env48 0) = true ↔
      (112 / 2 * 2) % (env48 0).size = ((env48 0).slab_offset / 2 * 2) % (env48 0).size :=
  valid_head_iff_congruent (env48 0) (Metaslab.mk 0 112 64) (by decide) (by decide)
    (Or.inl (by decide))

/-- Claim C13 (container recovery by address masking).  For every slab whose
address `s` is a multiple of `SLAB_SIZE` (and an address, below `2^64`) and
every offset `i < SLAB_SIZE`: `Slab::get(s + i)` is `s`, `SlabLink::get_slab`
of a node at `s + i` is `s`, `pointer_to_index(s + i)` is `i`, so
`pointer_offset(slab, pointer_to_index(p))` is `p` for the interior pointer
`p = s + i`; and `Slab::get` is idempotent on every address. -/
theorem container_recovery (E : Env) (i : Nat) (hs : E.slab % SLAB_SIZE = 0)
    (haddr : E.slab < SIZE_T_RANGE) (hi : i < SLAB_SIZE) :
    Slab.get (E.slab + i) = E.slab ∧
    SlabLink.get_slab (E.slab + i) = E.slab ∧
    pointer_to_index E (E.slab + i) = i ∧
    E.slab + pointer_to_index E (E.slab + i) = E.slab + i ∧
    Slab.get (Slab.get (E.slab + i)) = Slab.get (E.slab + i) ∧
    ∀ p : Nat, Slab.get (Slab.get p) = Slab.get p := by
  have hlt : E.slab + i < SIZE_T_RANGE := by
    unfold SLAB_SIZE at hs hi
    unfold SIZE_T_RANGE at haddr ⊢
    omega
  have hidem : ∀ p : Nat, Slab.get (Slab.get p) = Slab.get p := by
    intro p
    unfold Slab.get
    rw [Nat.and_assoc, Nat.and_self]
  have hidx : pointer_to_index E (E.slab + i) = i := pointer_to_index_add E i hi
  refine ⟨and_slab_mask _ _ hs hi hlt, and_slab_mask _ _ hs hi hlt, hidx, ?_, hidem _, hidem⟩
  rw [hidx]

/-- Container recovery at a concrete address: the slab at address `1048576` and the
interior offset 77. -/
theorem container_recovery_witness :
    (env64 1048576).slab % SLAB_SIZE = 0 ∧ (env64 1048576).slab < SIZE_T_RANGE ∧
    77 < SLAB_SIZE ∧
    Slab.get (1048576 + 77) = 1048576 ∧
    SlabLink.get_slab (1048576 + 77) = 1048576 ∧
    pointer_to_index (env64 1048576) (1048576 + 77) = 77 :=
  ⟨by decide, by decide, by decide,
    (container_recovery (env64 1048576) 77 (by decide) (by decide) (by decide)).1,
    (container_recovery (env64 1048576) 77 (by decide) (by decide) (by decide)).2.1,
    (container_recovery (env64 1048576) 77 (by decide) (by decide) (by decide)).2.2.1⟩

/-- Claim C15 (`dealloc` preserves the debug invariant).  For a well-formed
layout, a `Metaslab` with 16-bit fields on which `debug_slab_invariant`
passes, and a block counted in `used` at a slot offset that is neither on the
free list nor the link slot, where the assertion `head == 1` that `dealloc`
makes on a slab that was Full holds: if `dealloc` of the block returns
`NoSlabReturn`, the state it leaves passes every assertion of
`debug_slab_invariant` with all of the slab accounted for, and when the slab
was not Full the assertion `valid_head` made after `head` is set holds. -/
theorem dealloc_preserves_debug (E : Env) (hw : E.well_formed) (s : SlabState) (o a : Nat)
    (hr : s.meta.in_range) (hd : debug_slab_invariant E s = Verdict.ok a)
    (hused : 0 < s.meta.used) (hslot : Slot E o)
    (hchain : o ∉ chain_blocks E s.mem SLAB_SIZE s.meta.head) (hlink : o ≠ s.meta.link)
    (hassert : s.meta.is_full = true → dealloc_assert_head s = true)
    (hret : (dealloc E (E.slab + o) s).1 = Action.NoSlabReturn) :
    debug_slab_invariant E (dealloc E (E.slab + o) s).2.1 = Verdict.ok SLAB_SIZE ∧
    (s.meta.is_full = false → (dealloc E (E.slab + o) s).2.1.meta.valid_head E = true) := by
  have hfh : s.meta.is_full = true → s.meta.head = 1 :=
    fun h => by simpa [dealloc_assert_head] using hassert h
  have hoff := offset_eq hw
  have hsz := size_ge_two hw
  have hpos : 0 < E.size := by omega
  have hev := hslot.even hw
  have hidx := pointer_to_index_add E o (hslot.lt hw)
  obtain ⟨hu, hh, hk⟩ := hr
  have hdec : dec16 s.meta.used = s.meta.used - 1 := by unfold dec16; omega
  obtain ⟨n, hn⟩ : ∃ n, s.meta.used = n + 1 := ⟨s.meta.used - 1, by omega⟩
  by_cases hl : s.meta.link = 1
  · have hhead := hfh (by simp [Metaslab.is_full, hl])
    obtain ⟨hfull, -⟩ := (debug_full_iff hl a).mp hd
    have hfit := hw.2.2.2.1
    have hszle : E.size ≤ 65536 := by unfold SLAB_SIZE at hfit; omega
    have hmul : s.meta.used * E.size ≤ 65535 * 65536 := Nat.mul_le_mul (by omega) hszle
    have hacc : size_t (s.meta.used * E.size + E.offset) = s.meta.used * E.size + E.offset := by
      rw [hoff]; unfold SLAB_SIZE at hfit; unfold size_t SIZE_T_RANGE; omega
    rw [hacc, hoff] at hfull
    by_cases h1 : dec16 s.meta.used = 0
    · rw [dealloc_full_last E _ s hl h1] at hret
      exact absurd hret (by simp)
    · rw [dealloc_from_full E _ s hl h1, hdec, hidx]
      refine ⟨?_, fun h => by simp [Metaslab.is_full, hl] at h⟩
      apply debug_of_checked hpos [] 1
      refine ⟨hhead, by decide, by simp, fun h => absurd rfl h, ?_, ?_⟩
      · show o ≠ 1
        omega
      · show (s.meta.used - 1) * E.size + E.offset + 0 * E.size + _ + E.size = SLAB_SIZE
        rw [hoff, hn, Nat.add_sub_cancel]
        rw [hn, Nat.add_mul] at hfull
        simp only [if_true]
        omega
  · obtain ⟨fl, t, hc, -⟩ := checked_of_debug hw ⟨hu, hh, hk⟩ hd hl
    have hlen := hc.length_le hpos
    have hcb := chain_blocks_eq E s.mem fl SLAB_SIZE s.meta.head t hc.chain hc.t_odd
      (fun q hq => (hc.entries q hq).1) (Nat.le_of_lt hlen)
    rw [hcb] at hchain
    by_cases h1 : dec16 s.meta.used = 0
    · rw [dealloc_last E _ s hl h1] at hret
      exact absurd hret (by simp)
    · rw [dealloc_ordinary E _ s hl h1, hdec, hidx]
      refine ⟨?_, fun _ => valid_head_of_slot hw hslot _ _⟩
      apply debug_of_checked hpos (o :: fl) t
      refine ⟨⟨rfl, ?_⟩, hc.t_odd, ?_, hc.bump, hc.not_full, ?_⟩
      · show Chain E (store16 s.mem (E.slab + o) s.meta.head)
          (load16 (store16 s.mem (E.slab + o) s.meta.head) (E.slab + o)) fl t
        rw [load16_store16 _ _ _ hh]
        refine chain_congr E s.mem _ fl _ t ?_ hc.chain
        intro q hq
        have hqe := (hc.entries q hq).1
        have hne : q ≠ o := fun e => hchain (e ▸ hq)
        unfold store16
        constructor
        · rw [if_neg (by omega), if_neg (by omega)]
        · rw [if_neg (by omega), if_neg (by omega)]
      · intro q hq
        rcases List.mem_cons.mp hq with e | e
        · rw [e]; exact ⟨hev, slot_check hw hslot, hlink⟩
        · exact hc.entries q e
      · have htot := hc.total
        show (s.meta.used - 1) * E.size + E.offset + (o :: fl).length * E.size + _ + E.size
          = SLAB_SIZE
        rw [hn, Nat.add_sub_cancel, List.length_cons, Nat.add_mul]
        rw [hn, Nat.add_mul] at htot
        omega

theorem dealloc_preserves_debug_witness :
    (env64 0).well_formed ∧
    debug_slab_invariant (env64 0) { meta := Metaslab.mk 1023 1 1, mem := zero_mem }
      = Verdict.ok SLAB_SIZE ∧
    debug_slab_invariant (env64 0)
      (dealloc (env64 0) 128 { meta := Metaslab.mk 1023 1 1, mem := zero_mem }).2.1
      = Verdict.ok SLAB_SIZE ∧
    debug_slab_invariant (env64 0) { meta := Metaslab.mk 2 257 64, mem := zero_mem }
      = Verdict.ok SLAB_SIZE ∧
    debug_slab_invariant (env64 0)
      (dealloc (env64 0) 128 { meta := Metaslab.mk 2 257 64, mem := zero_mem }).2.1
      = Verdict.ok SLAB_SIZE ∧
    (dealloc (env64 0) 128 { meta := Metaslab.mk 2 257 64, mem := zero_mem }).2.1.meta.valid_head
      (env64 0) = true :=
  have h := dealloc_preserves_debug (env64 0) (by decide)
    { meta := Metaslab.mk 2 257 64, mem := zero_mem } 128 SLAB_SIZE (by decide) (by decide)
    (by decide) ⟨1, by decide, by decide⟩ (by decide) (by decide) (by decide) (by decide)
  ⟨by decide, by decide,
    (dealloc_preserves_debug (env64 0) (by decide)
      { meta := Metaslab.mk 1023 1 1, mem := zero_mem } 128 SLAB_SIZE (by decide) (by decide)
      (by decide) ⟨1, by decide, by decide⟩ (by decide) (by decide) (by decide) (by decide)).1,
    by decide, h.1, h.2 (by decide)⟩

/-- Claim C16 (no double allocation).  On a layout whose objects of at least
`PAGE_ALIGNED_SIZE` bytes are whole pages (what `PALFBSD::zero` asserts), in a
state reached by a valid run on which the slab is in use and not Full, the
address `alloc` returns is the address of no block currently handed out, and
the returned block lies between the payload start and the end of the slab. -/
theorem no_double_allocation (E : Env) (hw : E.well_formed) (hpg : E.whole_pages)
    (mem : Memory) (ops : List Op) (y : Sys) (z : Bool)
    (hrun : run E (fresh E mem) ops = some y)
    (hlive : y.returned = false) (hnf : y.st.meta.is_full = false) :
    (alloc E z E.size y.st).1 ∉ y.live ∧
    E.slab + (E.slab_offset - 1) ≤ (alloc E z E.size y.st).1 ∧
    (alloc E z E.size y.st).1 + E.size ≤ E.slab + SLAB_SIZE := by
  have hi := (good_run hw hpg ops _ y (good_fresh hw mem) hrun).1 hlive
  have hl : y.st.meta.link ≠ 1 := by simpa [Metaslab.is_full] using hnf
  obtain ⟨h1, o, ho, hs⟩ := alloc_fresh_slot hw hpg hi hl z
  have hge := hs.ge
  obtain ⟨_, _, hfit⟩ := hs
  exact ⟨h1, by omega, by omega⟩

theorem no_double_allocation_witness :
    (env3 65536).well_formed ∧ (env3 65536).whole_pages ∧
    run (env3 65536) (fresh (env3 65536) zero_mem) [Op.alloc false, Op.alloc false]
      = some { st := { meta := Metaslab.mk 2 1 16384, mem := zero_mem },
               live := [65536 + 49152, 65536 + 32768], returned := false } ∧
    (alloc (env3 65536) true 16384 { meta := Metaslab.mk 2 1 16384, mem := zero_mem }).1
      ∉ [65536 + 49152, 65536 + 32768] ∧
    65536 + 16384 ≤
      (alloc (env3 65536) true 16384 { meta := Metaslab.mk 2 1 16384, mem := zero_mem }).1 :=
  have h := no_double_allocation (env3 65536) (by decide) (by decide) zero_mem
    [Op.alloc false, Op.alloc false]
    { st := { meta := Metaslab.mk 2 1 16384, mem := zero_mem },
      live := [65536 + 49152, 65536 + 32768], returned := false } true rfl rfl (by decide)
  ⟨by decide, by decide, rfl, h.1, h.2.1⟩

/-- Claim C17 (Full implies exhausted head).  In every state reached by a
valid run from a freshly initialised slab, `link == 1` implies `head == 1`,
so the assertion `head == 1` of `dealloc` holds whenever the slab was Full;
`debug_slab_invariant` does not check it: it passes on a Full `Metaslab` with
`head == 3`. -/
theorem full_implies_head_one (E : Env) (hw : E.well_formed) (mem : Memory) (ops : List Op)
    (y : Sys) (hrun : run E (fresh E mem) ops = some y) :
    (y.st.meta.is_full = true → y.st.meta.head = 1) ∧
    (y.st.meta.is_full = true → dealloc_assert_head y.st = true) ∧
    debug_slab_invariant (env64 0) { meta := Metaslab.mk 1023 3 1, mem := zero_mem }
      = Verdict.ok SLAB_SIZE := by
  have h := (weak_run ops _ y (weak_fresh hw mem) hrun).full_head
  refine ⟨fun hfull => h (by simpa [Metaslab.is_full] using hfull), fun hfull => ?_, by decide⟩
  have := h (by simpa [Metaslab.is_full] using hfull)
  simp [dealloc_assert_head, this]

theorem full_implies_head_one_witness :
    run (env3 65536) (fresh (env3 65536) zero_mem) [Op.alloc false, Op.alloc false, Op.alloc false]
      = some { st := { meta := Metaslab.mk 3 1 1, mem := zero_mem },
               live := [65536 + 16384, 65536 + 49152, 65536 + 32768], returned := false } ∧
    (Metaslab.mk 3 1 1).is_full = true ∧ (Metaslab.mk 3 1 1).head = 1 :=
  ⟨rfl, by decide,
    (full_implies_head_one (env3 65536) (by decide) zero_mem
      [Op.alloc false, Op.alloc false, Op.alloc false]
      { st := { meta := Metaslab.mk 3 1 1, mem := zero_mem },
        live := [65536 + 16384, 65536 + 49152, 65536 + 32768], returned := false } rfl).1
      (by decide)⟩

/-- Claim C18 (returned addresses are object starts).  On a layout whose
objects of at least `PAGE_ALIGNED_SIZE` bytes are whole pages (what
`PALFBSD::zero` asserts), in a state reached by a valid run on which the slab
is in use and not Full, the pointer `alloc` returns satisfies
`is_start_of_object`: its distance to the end of the slab is a multiple of
the object size, also for the block handed out through `link`. -/
theorem alloc_returns_object_start (E : Env) (hw : E.well_formed) (hpg : E.whole_pages)
    (mem : Memory) (ops : List Op) (y : Sys) (z : Bool)
    (hrun : run E (fresh E mem) ops = some y)
    (hlive : y.returned = false) (hnf : y.st.meta.is_full = false) :
    is_start_of_object E (alloc E z E.size y.st).1 = true ∧
    (E.slab + SLAB_SIZE - (alloc E z E.size y.st).1) % E.size = 0 := by
  have hi := (good_run hw hpg ops _ y (good_fresh hw mem) hrun).1 hlive
  have hl : y.st.meta.link ≠ 1 := by simpa [Metaslab.is_full] using hnf
  obtain ⟨o, ho, hs⟩ := alloc_ptr_slot hw hi hl z
  rw [ho]
  have h1 := slot_start_of_object hw hs
  refine ⟨h1, ?_⟩
  have hfit : o + E.size ≤ SLAB_SIZE := by obtain ⟨_, _, h⟩ := hs; exact h
  have e : size_t_sub (E.slab + SLAB_SIZE) (E.slab + o) = E.slab + SLAB_SIZE - (E.slab + o) := by
    unfold size_t_sub; unfold SLAB_SIZE at hfit ⊢; omega
  simpa [is_start_of_object, is_multiple_of_sizeclass, e] using h1

theorem alloc_returns_object_start_witness :
    (env3 65536).well_formed ∧ (env3 65536).whole_pages ∧
    is_start_of_object (env3 65536)
      (alloc (env3 65536) true 16384 { meta := Metaslab.mk 2 1 16384, mem := zero_mem }).1
      = true :=
  ⟨by decide, by decide,
    (alloc_returns_object_start (env3 65536) (by decide) (by decide) zero_mem
      [Op.alloc false, Op.alloc false]
      { st := { meta := Metaslab.mk 2 1 16384, mem := zero_mem },
        live := [65536 + 49152, 65536 + 32768], returned := false } true rfl rfl
      (by decide)).1⟩

/-- Claim C19 (stack-discipline round trip).  On a layout whose objects of at
least `PAGE_ALIGNED_SIZE` bytes are whole pages (what `PALFBSD::zero`
asserts), in a state reached by a valid run with `used = u`, for distinct
blocks `p1..pk` currently handed out with `k <= u - 1`: the calls `dealloc(p1)`, ..., `dealloc(pk)` all return
`NoSlabReturn` and make no reclaim call, the `k` calls of `alloc` after them
(zeroing or not) return `pk, ..., p1`, and `used`, `head` and `link` are then
what they were before the first `dealloc`; a slab that was Full is Full again
with `used == capacity`.  Memory outside the `k` blocks is unchanged. -/
theorem stack_round_trip (E : Env) (hw : E.well_formed) (hpg : E.whole_pages) (mem : Memory)
    (ops : List Op) (y : Sys) (ps : List Nat) (zs : List Bool)
    (hrun : run E (fresh E mem) ops = some y)
    (hnr : y.returned = false) (hnd : ps.Nodup) (hlive : ∀ p ∈ ps, p ∈ y.live)
    (hk : ps.length + 1 ≤ y.st.meta.used) (hz : zs.length = ps.length) :
    (∀ i p, ps[i]? = some p →
      (dealloc E p (dealloc_run E y.st (ps.take i)).1).1 = Action.NoSlabReturn) ∧
    (dealloc_run E y.st ps).2.filter Call.is_reclaim = [] ∧
    (alloc_seq E zs (dealloc_run E y.st ps).1).2 = ps.reverse ∧
    (alloc_seq E zs (dealloc_run E y.st ps).1).1.meta = y.st.meta ∧
    (y.st.meta.is_full = true →
      (alloc_seq E zs (dealloc_run E y.st ps).1).1.meta.is_full = true ∧
      (alloc_seq E zs (dealloc_run E y.st ps).1).1.meta.used = E.capacity) ∧
    ∀ a, (∀ p ∈ ps, a < p ∨ p + E.size ≤ a) →
      (alloc_seq E zs (dealloc_run E y.st ps).1).1.mem a = y.st.mem a := by
  have hg := good_run hw hpg ops _ y (good_fresh hw mem) hrun
  obtain ⟨h0, h1, h2, h3, h4⟩ := round_trip hw hpg ps y zs (hg.1 hnr) hnd hlive hk hz
  refine ⟨h0, h1, h2, h3, fun hf => ?_, h4⟩
  rw [h3]
  exact ⟨hf, (full_iff_capacity hw hg (Or.inl hnr)).mp hf⟩

/-- A round trip on a concrete slab: on the Full slab of three objects, two
blocks are freed and the next two calls of `alloc` return them in reverse
order, leaving the slab Full. -/
theorem stack_round_trip_witness :
    (env3 65536).well_formed ∧ (env3 65536).whole_pages ∧
    run (env3 65536) (fresh (env3 65536) zero_mem) [Op.alloc false, Op.alloc false, Op.alloc false]
      = some { st := { meta := Metaslab.mk 3 1 1, mem := zero_mem },
               live := [65536 + 16384, 65536 + 49152, 65536 + 32768], returned := false } ∧
    (alloc_seq (env3 65536) [false, true]
      (dealloc_run (env3 65536) { meta := Metaslab.mk 3 1 1, mem := zero_mem }
        [65536 + 49152, 65536 + 32768]).1).2 = [65536 + 32768, 65536 + 49152] ∧
    (alloc_seq (env3 65536) [false, true]
      (dealloc_run (env3 65536) { meta := Metaslab.mk 3 1 1, mem := zero_mem }
        [65536 + 49152, 65536 + 32768]).1).1.meta = Metaslab.mk 3 1 1 :=
  ⟨by decide, by decide, rfl,
    (stack_round_trip (env3 65536) (by decide) (by decide) zero_mem
      [Op.alloc false, Op.alloc false, Op.alloc false]
      { st := { meta := Metaslab.mk 3 1 1, mem := zero_mem },
        live := [65536 + 16384, 65536 + 49152, 65536 + 32768], returned := false }
      [65536 + 49152, 65536 + 32768] [false, true] rfl rfl (by decide) (by decide) (by decide)
      rfl).2.2.1,
    (stack_round_trip (env3 65536) (by decide) (by decide) zero_mem
      [Op.alloc false, Op.alloc false, Op.alloc false]
      { st := { meta := Metaslab.mk 3 1 1, mem := zero_mem },
        live := [65536 + 16384, 65536 + 49152, 65536 + 32768], returned := false }
      [65536 + 49152, 65536 + 32768] [false, true] rfl rfl (by decide) (by decide) (by decide)
      rfl).2.2.2.1⟩

/-- Claim C20 (the debug walk terminates).  For every object size from 1 up
for which `accounted_for` cannot overflow (every size that fits in a slab),
every `link`, memory content, starting value and `accounted_for` not above
`SLAB_SIZE` (the loop is entered below it), the loop of
`debug_slab_invariant` is over within `SLAB_SIZE / size + 1` iterations: it
has reached an odd value or an assertion has failed.  So
`debug_slab_invariant` gives its verdict for every `Metaslab` and memory; it
returns nothing but the verdict, the `Metaslab` and the memory are only read. -/
theorem debug_walk_terminates (E : Env) (link : Nat) (mem : Memory) (curr acc : Nat)
    (hpos : 1 ≤ E.size) (hnw : E.size + SLAB_SIZE < SIZE_T_RANGE) (hacc : acc ≤ SLAB_SIZE) :
    debug_walk E link mem (SLAB_SIZE / E.size + 1) curr acc ≠ Walk.out_of_fuel ∧
    (∀ t a, debug_walk E link mem (SLAB_SIZE / E.size + 1) curr acc = Walk.done t a →
      t % 2 = 1) ∧
    ∀ s : SlabState, debug_slab_invariant E s ≠ Verdict.out_of_fuel := by
  have hdiv : (SLAB_SIZE - acc) / E.size ≤ SLAB_SIZE / E.size :=
    Nat.div_le_div_right (Nat.sub_le _ _)
  refine ⟨debug_walk_fuel link mem hpos hnw _ _ _ hacc (by omega),
    fun t a h => debug_walk_done_odd link mem _ _ _ t a h, fun s => ?_⟩
  by_cases h1 : s.meta.is_full = true
  · simp only [debug_slab_invariant, h1, if_true]
    split_ifs <;> simp
  · by_cases h3 : SLAB_SIZE > size_t (s.meta.used * E.size + E.offset)
    · have hlt : size_t (s.meta.used * E.size + E.offset) ≤ SLAB_SIZE := by omega
      have hw := debug_walk_fuel s.meta.link s.mem hpos hnw (SLAB_SIZE + 2) s.meta.head _ hlt
        (by
          have := Nat.div_le_self (SLAB_SIZE - size_t (s.meta.used * E.size + E.offset)) E.size
          omega)
      simp only [debug_slab_invariant, h1, h3, not_true_eq_false, if_false]
      cases hk : debug_walk E s.meta.link s.mem (SLAB_SIZE + 2) s.meta.head
          (size_t (s.meta.used * E.size + E.offset)) with
      | out_of_fuel => exact absurd hk hw
      | assert_failed => simp
      | done t a =>
        simp only
        split_ifs <;> first | (simp; done) | (simp only [ne_eq]; split_ifs <;> simp)
    · simp [debug_slab_invariant, h1, h3]

/-- Termination on a cyclic free list: object size 64, a free list whose only
block, at offset 64, names itself as its successor. -/
theorem debug_walk_terminates_witness :
    1 ≤ (env64 0).size ∧ (env64 0).size + SLAB_SIZE < SIZE_T_RANGE ∧ 64 ≤ SLAB_SIZE ∧
    load16 (store16 zero_mem 64 64) ((env64 0).slab + 64) = 64 ∧
    debug_walk (env64 0) 1 (store16 zero_mem 64 64) (SLAB_SIZE / (env64 0).size + 1) 64 64 ≠
      Walk.out_of_fuel ∧
    (∀ t a, debug_walk (env64 0) 1 (store16 zero_mem 64 64) (SLAB_SIZE / (env64 0).size + 1)
      64 64 = Walk.done t a → t % 2 = 1) ∧
    ∀ s : SlabState, debug_slab_invariant (env64 0) s ≠ Verdict.out_of_fuel :=
  ⟨by decide, by decide, by decide, by decide,
    debug_walk_terminates (env64 0) 1 (store16 zero_mem 64 64) 64 64 (by decide) (by decide)
      (by decide)⟩

end Snmalloc
